import Mathlib

/-!
Shallow embedding of jigglypuffRL/classicalRL/karmedBandit.py.

The mutable object state of GaussianBandits (shared by EpsGreedy, UCB and
SoftmaxActionSelection) is modelled as a record BanditState.  Machine floats
are modelled as rationals; the counts array (a float array in numpy that is
only ever incremented by 1 from 0) is modelled as naturals and cast where it
enters a denominator.  All randomness (np.random.normal reward draws,
np.random.random and np.random.randint in EpsGreedy.get_action, the
categorical draw np.random.choice in SoftmaxActionSelection.get_action) is
modelled by oracle functions passed as parameters: quantifying over all
oracles covers every realizable run, and concrete oracles give concrete runs.
The UCB confidence term sqrt(2*ln t / counts), being irrational, is likewise
supplied as an oracle parameter conf : Nat -> Nat -> Q applied to the
timestep t and the count value, exactly where the source evaluates it.
-/

namespace KarmedBandit

/-- State of a GaussianBandits object: sizes, the Q and counts tables, the
cumulative regret scalar, the regret snapshot list and the average-reward
list.  The latent rewards matrix only feeds the oracle-modelled normal
draws, so it is not stored. -/
structure BanditState where
  nbandits : Nat
  narms : Nat
  Q : Nat → Nat → ℚ
  counts : Nat → Nat → Nat
  regret : ℚ
  regrets : List ℚ
  avg_reward : List ℚ

/-- Pointwise update of a two-index table at entry (b, a). -/
def upd2 {α : Type} (f : Nat → Nat → α) (b a : Nat) (v : α) : Nat → Nat → α :=
  fun b' a' => if b' = b ∧ a' = a then v else f b' a'

/-- np.argmax over the first n entries of a row: index of the first maximum,
via a left fold that replaces the best index only on strict improvement. -/
def npArgmax (f : Nat → ℚ) (n : Nat) : Nat :=
  (List.range n).foldl (fun best i => if f best < f i then i else best) 0

/-- Python max over the first n entries of a row (the source writes
max(self.Q[bandit])). -/
def rowMax (f : Nat → ℚ) (n : Nat) : ℚ :=
  (List.range n).foldl (fun m i => max m (f i)) (f 0)

/-- np.mean of a list of rationals. -/
def npMean (l : List ℚ) : ℚ := l.sum / (l.length : ℚ)

/-- GaussianBandits.__init__: zero Q and counts, regret 0.0, regrets [0.0],
empty avg_reward.  UCB.__init__ re-zeroes counts, which is a no-op. -/
def GaussianBandits.init (bandits arms : Nat) : BanditState :=
  { nbandits := bandits, narms := arms,
    Q := fun _ _ => 0, counts := fun _ _ => 0,
    regret := 0, regrets := [0], avg_reward := [] }

/-- update_regret (textually identical in all three policy classes):
add max(Q[bandit]) - Q[bandit][action] to the cumulative regret and append
the new cumulative value to the regrets list. -/
def BanditState.update_regret (s : BanditState) (bandit action : Nat) : BanditState :=
  { s with
    regret := s.regret + (rowMax (s.Q bandit) s.narms - s.Q bandit action),
    regrets := s.regrets ++ [s.regret + (rowMax (s.Q bandit) s.narms - s.Q bandit action)] }

/-- The shared Q-table assignment
Q[b,a] += (reward - Q[b,a]) / (counts[b,a] + 1), reading the counts value
current at the moment of the assignment. -/
def BanditState.qUpdate (s : BanditState) (b a : Nat) (reward : ℚ) : BanditState :=
  { s with
    Q := upd2 s.Q b a (s.Q b a + (reward - s.Q b a) / ((s.counts b a : ℚ) + 1)) }

/-- counts[b,a] += 1. -/
def BanditState.countsInc (s : BanditState) (b a : Nat) : BanditState :=
  { s with counts := upd2 s.counts b a (s.counts b a + 1) }

/-- EpsGreedy.get_action: with the uniform draw u below eps take the random
arm ra, else np.argmax over the Q row. -/
def EpsGreedy.get_action (eps : ℚ) (s : BanditState) (bandit : Nat) (u : ℚ) (ra : Nat) : Nat :=
  if u < eps then ra else npArgmax (s.Q bandit) s.narms

/-- Body of the per-bandit loop of EpsGreedy.one_step: choose the action,
draw the reward, append it to R_step, record regret on the pre-update Q,
apply the Q update (denominator counts+1 on the not-yet-incremented count),
then increment the count. -/
def EpsGreedy.body (eps : ℚ) (U : Nat → ℚ) (RA : Nat → Nat) (RW : Nat → ℚ)
    (acc : BanditState × List ℚ) (bandit : Nat) : BanditState × List ℚ :=
  let st := acc.1
  let action := EpsGreedy.get_action eps st bandit (U bandit) (RA bandit)
  let reward := RW bandit
  let st1 := st.update_regret bandit action
  let st2 := st1.qUpdate bandit action reward
  let st3 := st2.countsInc bandit action
  (st3, acc.2 ++ [reward])

/-- EpsGreedy.one_step: the per-bandit loop, returning the state and R_step. -/
def EpsGreedy.one_step (eps : ℚ) (U : Nat → ℚ) (RA : Nat → Nat) (RW : Nat → ℚ)
    (s : BanditState) : BanditState × List ℚ :=
  (List.range s.nbandits).foldl (EpsGreedy.body eps U RA RW) (s, [])

/-- EpsGreedy.learn: n_timesteps rounds of one_step, appending the mean of
each R_step to avg_reward.  Oracles are indexed by the timestep i first. -/
def EpsGreedy.learn (eps : ℚ) (U : Nat → Nat → ℚ) (RA : Nat → Nat → Nat)
    (RW : Nat → Nat → ℚ) (s : BanditState) (n : Nat) : BanditState :=
  (List.range n).foldl
    (fun st i =>
      let p := EpsGreedy.one_step eps (U i) (RA i) (RW i) st
      { p.1 with avg_reward := p.1.avg_reward ++ [npMean p.2] })
    s

/-- UCB.get_action: np.argmax over Q[bandit] + sqrt(2*ln t / counts[bandit]),
with the confidence term supplied by the oracle conf applied to t and the
count value, elementwise over the arms. -/
def UCB.get_action (conf : Nat → Nat → ℚ) (t : Nat) (s : BanditState) (bandit : Nat) : Nat :=
  npArgmax (fun a => s.Q bandit a + conf t (s.counts bandit a)) s.narms

/-- Body of the per-bandit loop of UCB.one_step: choose the action, increment
the count, draw the reward, append it, apply the Q update (whose denominator
counts+1 now reads the already incremented count), increment the count again,
then record regret on the post-update Q. -/
def UCB.body (conf : Nat → Nat → ℚ) (RW : Nat → ℚ) (i : Nat)
    (acc : BanditState × List ℚ) (bandit : Nat) : BanditState × List ℚ :=
  let st := acc.1
  let action := UCB.get_action conf i st bandit
  let st1 := st.countsInc bandit action
  let reward := RW bandit
  let st2 := st1.qUpdate bandit action reward
  let st3 := st2.countsInc bandit action
  let st4 := st3.update_regret bandit action
  (st4, acc.2 ++ [reward])

/-- UCB.one_step over all bandits at main-loop timestep i. -/
def UCB.one_step (conf : Nat → Nat → ℚ) (RW : Nat → ℚ) (i : Nat)
    (s : BanditState) : BanditState × List ℚ :=
  (List.range s.nbandits).foldl (UCB.body conf RW i) (s, [])

/-- Body of the inner (per-arm) loop of UCB.initial_run: increment the count,
draw the reward, append it to bandit_reward, apply the Q update (denominator
counts+1 on the already incremented count, hence 2 on a first visit), then
record regret. -/
def UCB.arm_body (RW0 : Nat → Nat → ℚ) (bandit : Nat)
    (acc : BanditState × List ℚ) (arm : Nat) : BanditState × List ℚ :=
  let st := acc.1
  let st1 := st.countsInc bandit arm
  let reward := RW0 bandit arm
  let st2 := st1.qUpdate bandit arm reward
  let st3 := st2.update_regret bandit arm
  (st3, acc.2 ++ [reward])

/-- Body of the outer (per-bandit) loop of UCB.initial_run: run the per-arm
loop, then append the mean of bandit_reward to avg_reward. -/
def UCB.bandit_body (RW0 : Nat → Nat → ℚ) (st : BanditState) (bandit : Nat) : BanditState :=
  let p := (List.range st.narms).foldl (UCB.arm_body RW0 bandit) (st, [])
  { p.1 with avg_reward := p.1.avg_reward ++ [npMean p.2] }

/-- UCB.initial_run: every bandit visits every arm once, in arm order. -/
def UCB.initial_run (RW0 : Nat → Nat → ℚ) (s : BanditState) : BanditState :=
  (List.range s.nbandits).foldl (UCB.bandit_body RW0) s

/-- UCB.learn: initial_run once, then n_timesteps rounds of one_step(i) with
i running over range n, appending each mean reward. -/
def UCB.learn (conf : Nat → Nat → ℚ) (RW0 : Nat → Nat → ℚ) (RW : Nat → Nat → ℚ)
    (s : BanditState) (n : Nat) : BanditState :=
  (List.range n).foldl
    (fun st i =>
      let p := UCB.one_step conf (RW i) i st
      { p.1 with avg_reward := p.1.avg_reward ++ [npMean p.2] })
    (UCB.initial_run RW0 s)

/-- SoftmaxActionSelection stores the temperature next to the shared state. -/
structure SoftmaxState where
  state : BanditState
  temp : ℚ

/-- SoftmaxActionSelection.__init__: the temperature is stored unchecked. -/
def SoftmaxActionSelection.init (bandits arms : Nat) (temp : ℚ) : SoftmaxState :=
  { state := GaussianBandits.init bandits arms, temp := temp }

/-- Body of the per-bandit loop of SoftmaxActionSelection.one_step: identical
to the UCB body except that the action is the categorical draw of get_action
(np.random.choice over the softmax probabilities), modelled by the oracle A. -/
def SoftmaxActionSelection.body (A : Nat → Nat) (RW : Nat → ℚ)
    (acc : BanditState × List ℚ) (bandit : Nat) : BanditState × List ℚ :=
  let st := acc.1
  let action := A bandit
  let st1 := st.countsInc bandit action
  let reward := RW bandit
  let st2 := st1.qUpdate bandit action reward
  let st3 := st2.countsInc bandit action
  let st4 := st3.update_regret bandit action
  (st4, acc.2 ++ [reward])

/-- SoftmaxActionSelection.one_step over all bandits. -/
def SoftmaxActionSelection.one_step (A : Nat → Nat) (RW : Nat → ℚ)
    (s : BanditState) : BanditState × List ℚ :=
  (List.range s.nbandits).foldl (SoftmaxActionSelection.body A RW) (s, [])

/-- Per-arm body of SoftmaxActionSelection.initial_run, textually identical
to the UCB one in the source. -/
def SoftmaxActionSelection.arm_body (RW0 : Nat → Nat → ℚ) (bandit : Nat)
    (acc : BanditState × List ℚ) (arm : Nat) : BanditState × List ℚ :=
  let st := acc.1
  let st1 := st.countsInc bandit arm
  let reward := RW0 bandit arm
  let st2 := st1.qUpdate bandit arm reward
  let st3 := st2.update_regret bandit arm
  (st3, acc.2 ++ [reward])

/-- Per-bandit body of SoftmaxActionSelection.initial_run. -/
def SoftmaxActionSelection.bandit_body (RW0 : Nat → Nat → ℚ)
    (st : BanditState) (bandit : Nat) : BanditState :=
  let p := (List.range st.narms).foldl (SoftmaxActionSelection.arm_body RW0 bandit) (st, [])
  { p.1 with avg_reward := p.1.avg_reward ++ [npMean p.2] }

/-- SoftmaxActionSelection.initial_run. -/
def SoftmaxActionSelection.initial_run (RW0 : Nat → Nat → ℚ) (s : BanditState) : BanditState :=
  (List.range s.nbandits).foldl (SoftmaxActionSelection.bandit_body RW0) s

/-- SoftmaxActionSelection.learn: initial_run, then the main loop.  The
categorical action oracle A is indexed by timestep then bandit. -/
def SoftmaxActionSelection.learn (A : Nat → Nat → Nat) (RW0 : Nat → Nat → ℚ)
    (RW : Nat → Nat → ℚ) (s : BanditState) (n : Nat) : BanditState :=
  (List.range n).foldl
    (fun st i =>
      let p := SoftmaxActionSelection.one_step (A i) (RW i) st
      { p.1 with avg_reward := p.1.avg_reward ++ [npMean p.2] })
    (SoftmaxActionSelection.initial_run RW0 s)

/-- Instrumented twin of UCB.body that additionally logs the argument pair
the confidence evaluation of get_action receives: the timestep t = i and the
counts row it reads.  The state component evolves through UCB.body itself. -/
def UCB.body_tr (conf : Nat → Nat → ℚ) (RW : Nat → ℚ) (i : Nat)
    (acc : (BanditState × List ℚ) × List (Nat × List Nat)) (bandit : Nat) :
    (BanditState × List ℚ) × List (Nat × List Nat) :=
  (UCB.body conf RW i acc.1 bandit,
   acc.2 ++ [(i, (List.range acc.1.1.narms).map (acc.1.1.counts bandit))])

/-- Instrumented UCB.one_step: also returns the get_action call log. -/
def UCB.one_step_tr (conf : Nat → Nat → ℚ) (RW : Nat → ℚ) (i : Nat)
    (s : BanditState) : (BanditState × List ℚ) × List (Nat × List Nat) :=
  (List.range s.nbandits).foldl (UCB.body_tr conf RW i) ((s, []), [])

/-- Instrumented UCB.learn: final state plus the log of every (t, counts row)
pair at which the main loop evaluates the confidence formula. -/
def UCB.learn_tr (conf : Nat → Nat → ℚ) (RW0 : Nat → Nat → ℚ) (RW : Nat → Nat → ℚ)
    (s : BanditState) (n : Nat) : BanditState × List (Nat × List Nat) :=
  (List.range n).foldl
    (fun p i =>
      let q := UCB.one_step_tr conf (RW i) i p.1
      ({ q.1.1 with avg_reward := q.1.1.avg_reward ++ [npMean q.1.2] }, p.2 ++ q.2))
    (UCB.initial_run RW0 s, [])

/-- Projection lemmas: update_regret leaves sizes, tables and avg_reward alone. -/
@[simp] theorem update_regret_narms (s : BanditState) (b a : Nat) :
    (s.update_regret b a).narms = s.narms := rfl

@[simp] theorem update_regret_nbandits (s : BanditState) (b a : Nat) :
    (s.update_regret b a).nbandits = s.nbandits := rfl

@[simp] theorem update_regret_Q (s : BanditState) (b a : Nat) :
    (s.update_regret b a).Q = s.Q := rfl

@[simp] theorem update_regret_counts (s : BanditState) (b a : Nat) :
    (s.update_regret b a).counts = s.counts := rfl

@[simp] theorem update_regret_avg (s : BanditState) (b a : Nat) :
    (s.update_regret b a).avg_reward = s.avg_reward := rfl

/-- Projection lemmas for qUpdate. -/
@[simp] theorem qUpdate_narms (s : BanditState) (b a : Nat) (r : ℚ) :
    (s.qUpdate b a r).narms = s.narms := rfl

@[simp] theorem qUpdate_nbandits (s : BanditState) (b a : Nat) (r : ℚ) :
    (s.qUpdate b a r).nbandits = s.nbandits := rfl

@[simp] theorem qUpdate_counts (s : BanditState) (b a : Nat) (r : ℚ) :
    (s.qUpdate b a r).counts = s.counts := rfl

@[simp] theorem qUpdate_regret (s : BanditState) (b a : Nat) (r : ℚ) :
    (s.qUpdate b a r).regret = s.regret := rfl

@[simp] theorem qUpdate_regrets (s : BanditState) (b a : Nat) (r : ℚ) :
    (s.qUpdate b a r).regrets = s.regrets := rfl

@[simp] theorem qUpdate_avg (s : BanditState) (b a : Nat) (r : ℚ) :
    (s.qUpdate b a r).avg_reward = s.avg_reward := rfl

/-- Projection lemmas for countsInc. -/
@[simp] theorem countsInc_narms (s : BanditState) (b a : Nat) :
    (s.countsInc b a).narms = s.narms := rfl

@[simp] theorem countsInc_nbandits (s : BanditState) (b a : Nat) :
    (s.countsInc b a).nbandits = s.nbandits := rfl

@[simp] theorem countsInc_Q (s : BanditState) (b a : Nat) :
    (s.countsInc b a).Q = s.Q := rfl

@[simp] theorem countsInc_regret (s : BanditState) (b a : Nat) :
    (s.countsInc b a).regret = s.regret := rfl

@[simp] theorem countsInc_regrets (s : BanditState) (b a : Nat) :
    (s.countsInc b a).regrets = s.regrets := rfl

@[simp] theorem countsInc_avg (s : BanditState) (b a : Nat) :
    (s.countsInc b a).avg_reward = s.avg_reward := rfl

/-- Value of upd2 at the updated entry. -/
@[simp] theorem upd2_same {α : Type} (f : Nat → Nat → α) (b a : Nat) (v : α) :
    upd2 f b a v b a = v := by
  simp [upd2]

/-- Value of upd2 away from the updated entry. -/
theorem upd2_other {α : Type} (f : Nat → Nat → α) (b a : Nat) (v : α)
    (b' a' : Nat) (h : ¬ (b' = b ∧ a' = a)) : upd2 f b a v b' a' = f b' a' := by
  simp [upd2, h]

/-- A fold preserves a predicate that every step of the list preserves. -/
theorem foldl_pres {σ : Type} (P : σ → Prop) (g : σ → Nat → σ) :
    ∀ (L : List Nat), (∀ acc i, i ∈ L → P acc → P (g acc i)) →
      ∀ acc, P acc → P (L.foldl g acc)
  | [], _, _, h => h
  | i :: L, hg, acc, h =>
      foldl_pres P g L (fun acc' j hj => hg acc' j (List.mem_cons_of_mem i hj))
        (g acc i) (hg acc i (List.mem_cons_self i L) h)

/-- A projection that every step leaves unchanged is unchanged by the fold. -/
theorem foldl_proj_const {σ α : Type} (proj : σ → α) (g : σ → Nat → σ) :
    ∀ (L : List Nat), (∀ acc i, i ∈ L → proj (g acc i) = proj acc) →
      ∀ acc, proj (L.foldl g acc) = proj acc
  | [], _, _ => rfl
  | i :: L, hg, acc => by
      rw [List.foldl_cons,
        foldl_proj_const proj g L (fun acc' j hj => hg acc' j (List.mem_cons_of_mem i hj)),
        hg acc i (List.mem_cons_self i L)]

/-- A list-valued projection to which each step of the fold appends one entry
determined by the step index accumulates the map of the list. -/
theorem foldl_proj_append {σ : Type} (P : σ → Prop) (proj : σ → List ℚ)
    (g : σ → Nat → σ) (e : Nat → ℚ) :
    ∀ (L : List Nat), (∀ acc i, i ∈ L → P acc → P (g acc i)) →
      (∀ acc i, i ∈ L → P acc → proj (g acc i) = proj acc ++ [e i]) →
      ∀ acc, P acc → proj (L.foldl g acc) = proj acc ++ L.map e
  | [], _, _, acc, _ => by simp
  | i :: L, hP, hg, acc, h => by
      rw [List.foldl_cons,
        foldl_proj_append P proj g e L
          (fun acc' j hj => hP acc' j (List.mem_cons_of_mem i hj))
          (fun acc' j hj => hg acc' j (List.mem_cons_of_mem i hj))
          (g acc i) (hP acc i (List.mem_cons_self i L) h),
        hg acc i (List.mem_cons_self i L) h]
      simp

/-- A natural-valued projection raised by exactly c at every step of the fold
grows by c times the length of the list. -/
theorem foldl_proj_add {σ : Type} (P : σ → Prop) (proj : σ → Nat)
    (g : σ → Nat → σ) (c : Nat) :
    ∀ (L : List Nat), (∀ acc i, i ∈ L → P acc → P (g acc i)) →
      (∀ acc i, i ∈ L → P acc → proj (g acc i) = proj acc + c) →
      ∀ acc, P acc → proj (L.foldl g acc) = proj acc + c * L.length
  | [], _, _, acc, _ => by simp
  | i :: L, hP, hg, acc, h => by
      rw [List.foldl_cons,
        foldl_proj_add P proj g c L
          (fun acc' j hj => hP acc' j (List.mem_cons_of_mem i hj))
          (fun acc' j hj => hg acc' j (List.mem_cons_of_mem i hj))
          (g acc i) (hP acc i (List.mem_cons_self i L) h),
        hg acc i (List.mem_cons_self i L) h]
      simp [List.length_cons, Nat.mul_succ]
      ring

/-- An indexed natural-valued projection raised by k at index i when step i
runs grows by k times the multiplicity of the index in the list. -/
theorem foldl_proj_count {σ : Type} (P : σ → Prop) (proj : σ → Nat → Nat)
    (g : σ → Nat → σ) (k : Nat) :
    ∀ (L : List Nat), (∀ acc i, i ∈ L → P acc → P (g acc i)) →
      (∀ acc i b, i ∈ L → P acc →
        proj (g acc i) b = proj acc b + (if b = i then k else 0)) →
      ∀ acc b, P acc → proj (L.foldl g acc) b = proj acc b + k * L.count b
  | [], _, _, acc, b, _ => by simp
  | i :: L, hP, hg, acc, b, h => by
      rw [List.foldl_cons,
        foldl_proj_count P proj g k L
          (fun acc' j hj => hP acc' j (List.mem_cons_of_mem i hj))
          (fun acc' j b' hj => hg acc' j b' (List.mem_cons_of_mem i hj))
          (g acc i) b (hP acc i (List.mem_cons_self i L) h),
        hg acc i b (List.mem_cons_self i L) h, List.count_cons]
      by_cases hb : b = i
      · simp [hb, Nat.mul_succ]
        ring
      · have hb2 : ¬ i = b := fun hh => hb hh.symm
        simp [hb, hb2]

/-- The reward component of the per-bandit folds: each body appends the
reward of its bandit, so the fold accumulates the map of the bandit list. -/
theorem foldl_snd_map {g : BanditState × List ℚ → Nat → BanditState × List ℚ}
    (w : Nat → ℚ) (hg : ∀ acc i, (g acc i).2 = acc.2 ++ [w i]) :
    ∀ (L : List Nat) (acc : BanditState × List ℚ),
      (L.foldl g acc).2 = acc.2 ++ L.map w
  | [], _ => by simp
  | i :: L, acc => by
      rw [List.foldl_cons, foldl_snd_map w hg L, hg acc i]
      simp

/-- Sum of the counts row of bandit b over the arms 0..na-1. -/
def rowCount (na : Nat) (c : Nat → Nat → Nat) (b : Nat) : Nat :=
  ∑ a ∈ Finset.range na, c b a

/-- Pointwise description of a single count increment. -/
theorem upd2_inc_point (c : Nat → Nat → Nat) (b0 a0 b a : Nat) :
    upd2 c b0 a0 (c b0 a0 + 1) b a = c b a + (if b = b0 ∧ a = a0 then 1 else 0) := by
  by_cases h : b = b0 ∧ a = a0
  · obtain ⟨hb, ha⟩ := h
    subst hb; subst ha
    simp [upd2]
  · simp [upd2, h]

/-- A single count increment raises the row sum of its own row by one when
its arm index is within range, and changes no other row. -/
theorem rowCount_inc (na : Nat) (c : Nat → Nat → Nat) (b0 a0 b : Nat) :
    rowCount na (upd2 c b0 a0 (c b0 a0 + 1)) b
      = rowCount na c b + (if b = b0 ∧ a0 < na then 1 else 0) := by
  unfold rowCount
  simp only [upd2_inc_point, Finset.sum_add_distrib]
  congr 1
  by_cases hb : b = b0
  · subst hb
    simp only [true_and]
    rw [Finset.sum_ite_eq' (Finset.range na) a0 (fun _ => 1)]
    simp [Finset.mem_range]
  · simp [hb]

/-- The running best index of the argmax fold is the seed or a list member. -/
theorem foldl_best_mem (f : Nat → ℚ) :
    ∀ (L : List Nat) (b0 : Nat),
      L.foldl (fun best i => if f best < f i then i else best) b0 ∈ b0 :: L := by
  intro L
  induction L with
  | nil => intro b0; simp
  | cons i L ih =>
      intro b0
      rw [List.foldl_cons]
      by_cases hc : f b0 < f i
      · rw [if_pos hc]
        rcases List.mem_cons.mp (ih i) with h2 | h2
        · rw [h2]
          exact List.mem_cons_of_mem b0 (List.mem_cons_self i L)
        · exact List.mem_cons_of_mem b0 (List.mem_cons_of_mem i h2)
      · rw [if_neg hc]
        rcases List.mem_cons.mp (ih b0) with h2 | h2
        · rw [h2]
          exact List.mem_cons_self b0 (i :: L)
        · exact List.mem_cons_of_mem b0 (List.mem_cons_of_mem i h2)

/-- The argmax fold result dominates the seed. -/
theorem foldl_best_seed_le (f : Nat → ℚ) :
    ∀ (L : List Nat) (b0 : Nat),
      f b0 ≤ f (L.foldl (fun best i => if f best < f i then i else best) b0) := by
  intro L
  induction L with
  | nil => intro b0; exact le_refl _
  | cons i L ih =>
      intro b0
      rw [List.foldl_cons]
      by_cases hc : f b0 < f i
      · rw [if_pos hc]
        exact le_trans (le_of_lt hc) (ih i)
      · rw [if_neg hc]
        exact ih b0

/-- The argmax fold result dominates every member of the list. -/
theorem foldl_best_mem_le (f : Nat → ℚ) :
    ∀ (L : List Nat) (b0 x : Nat), x ∈ L →
      f x ≤ f (L.foldl (fun best i => if f best < f i then i else best) b0) := by
  intro L
  induction L with
  | nil => intro b0 x hx; cases hx
  | cons i L ih =>
      intro b0 x hx
      rw [List.foldl_cons]
      rcases List.mem_cons.mp hx with h1 | h1
      · subst h1
        by_cases hc : f b0 < f x
        · rw [if_pos hc]
          exact foldl_best_seed_le f L x
        · rw [if_neg hc]
          exact le_trans (not_lt.mp hc) (foldl_best_seed_le f L b0)
      · exact ih _ x h1

/-- np.argmax over a nonempty row returns an index within the row. -/
theorem npArgmax_lt (f : Nat → ℚ) (n : Nat) (hn : 0 < n) : npArgmax f n < n := by
  unfold npArgmax
  rcases List.mem_cons.mp (foldl_best_mem f (List.range n) 0) with h1 | h1
  · rw [h1]; exact hn
  · exact List.mem_range.mp h1

/-- np.argmax attains the row maximum. -/
theorem npArgmax_ge (f : Nat → ℚ) (n a : Nat) (ha : a < n) :
    f a ≤ f (npArgmax f n) := by
  unfold npArgmax
  exact foldl_best_mem_le f (List.range n) 0 a (List.mem_range.mpr ha)

/-- With one entry strictly above every other entry of the row, np.argmax
returns exactly that entry. -/
theorem npArgmax_eq_of_strict (f : Nat → ℚ) (n a : Nat) (ha : a < n)
    (hd : ∀ j, j < n → j ≠ a → f j < f a) : npArgmax f n = a := by
  by_contra hne
  have h1 : npArgmax f n < n := npArgmax_lt f n (lt_of_le_of_lt (Nat.zero_le a) ha)
  have h2 : f (npArgmax f n) < f a := hd _ h1 hne
  exact absurd (npArgmax_ge f n a ha) (not_le.mpr h2)

/-- The max fold dominates its seed. -/
theorem foldl_max_seed_le (f : Nat → ℚ) :
    ∀ (L : List Nat) (b : ℚ), b ≤ L.foldl (fun m i => max m (f i)) b := by
  intro L
  induction L with
  | nil => intro b; exact le_refl b
  | cons i L ih =>
      intro b
      rw [List.foldl_cons]
      exact le_trans (le_max_left b (f i)) (ih (max b (f i)))

/-- The max fold dominates every member of the list. -/
theorem foldl_max_mem_le (f : Nat → ℚ) :
    ∀ (L : List Nat) (b : ℚ) (x : Nat), x ∈ L →
      f x ≤ L.foldl (fun m i => max m (f i)) b := by
  intro L
  induction L with
  | nil => intro b x hx; cases hx
  | cons i L ih =>
      intro b x hx
      rw [List.foldl_cons]
      rcases List.mem_cons.mp hx with h1 | h1
      · subst h1
        exact le_trans (le_max_right b (f x)) (foldl_max_seed_le f L _)
      · exact ih _ x h1

/-- Python max over a row dominates every in-range entry. -/
theorem rowMax_ge (f : Nat → ℚ) (n a : Nat) (ha : a < n) : f a ≤ rowMax f n := by
  unfold rowMax
  exact foldl_max_mem_le f (List.range n) (f 0) a (List.mem_range.mpr ha)

/-- A list is non-negative at every index and non-decreasing between
consecutive entries. -/
def nonnegMono (l : List ℚ) : Prop :=
  l.Chain' (fun x y => x ≤ y) ∧ ∀ x ∈ l, 0 ≤ x

/-- Run invariant of the regret tracker: the snapshot list is non-negative
and non-decreasing and its last entry is the cumulative regret scalar. -/
def RegInv (s : BanditState) : Prop :=
  nonnegMono s.regrets ∧ s.regrets.getLast? = some s.regret

/-- An element equal to the optional last entry is a member of the list. -/
theorem mem_of_getLast_eq : ∀ {l : List ℚ} {x : ℚ}, l.getLast? = some x → x ∈ l
  | [], x, h => by simp at h
  | [a], x, h => by
      simp [List.getLast?] at h
      simp [h]
  | a :: b :: l, x, h => by
      rw [List.getLast?_cons_cons] at h
      exact List.mem_cons_of_mem a (mem_of_getLast_eq h)

/-- update_regret with an in-range action preserves the regret invariant:
the appended gap max(Q row) - Q entry is non-negative. -/
theorem update_regret_RegInv (s : BanditState) (b a : Nat) (ha : a < s.narms)
    (h : RegInv s) : RegInv (s.update_regret b a) := by
  obtain ⟨⟨hch, hnn⟩, hlast⟩ := h
  have hgap : 0 ≤ rowMax (s.Q b) s.narms - s.Q b a := by
    have := rowMax_ge (s.Q b) s.narms a ha
    linarith
  have hreg0 : 0 ≤ s.regret := hnn _ (mem_of_getLast_eq hlast)
  refine ⟨⟨?_, ?_⟩, ?_⟩
  · rw [BanditState.update_regret, List.chain'_append]
    refine ⟨hch, List.chain'_singleton _, ?_⟩
    intro x hx y hy
    rw [hlast] at hx
    simp at hx hy
    subst hx; subst hy
    linarith
  · intro x hx
    rw [BanditState.update_regret] at hx
    rcases List.mem_append.mp hx with h1 | h1
    · exact hnn x h1
    · simp at h1
      subst h1
      linarith
  · rw [BanditState.update_regret]
    exact List.getLast?_concat _

/-- The softmax initial run is the same function as the UCB initial run: the
source duplicates the code verbatim. -/
theorem softmax_initial_run_eq (RW0 : Nat → Nat → ℚ) :
    SoftmaxActionSelection.initial_run RW0 = UCB.initial_run RW0 := rfl

/-- Counts table after the EpsGreedy per-bandit body: one increment at the
chosen cell. -/
theorem eps_body_counts (eps : ℚ) (U : Nat → ℚ) (RA : Nat → Nat) (RW : Nat → ℚ)
    (acc : BanditState × List ℚ) (i : Nat) :
    (EpsGreedy.body eps U RA RW acc i).1.counts
      = upd2 acc.1.counts i (EpsGreedy.get_action eps acc.1 i (U i) (RA i))
          (acc.1.counts i (EpsGreedy.get_action eps acc.1 i (U i) (RA i)) + 1) := rfl

/-- Counts table after the UCB per-bandit body: two increments at the chosen
cell. -/
theorem ucb_body_counts (conf : Nat → Nat → ℚ) (RW : Nat → ℚ) (i : Nat)
    (acc : BanditState × List ℚ) (bandit : Nat) :
    (UCB.body conf RW i acc bandit).1.counts
      = upd2 (upd2 acc.1.counts bandit (UCB.get_action conf i acc.1 bandit)
               (acc.1.counts bandit (UCB.get_action conf i acc.1 bandit) + 1))
          bandit (UCB.get_action conf i acc.1 bandit)
          (upd2 acc.1.counts bandit (UCB.get_action conf i acc.1 bandit)
             (acc.1.counts bandit (UCB.get_action conf i acc.1 bandit) + 1)
             bandit (UCB.get_action conf i acc.1 bandit) + 1) := rfl

/-- Counts table after the Softmax per-bandit body: two increments at the
sampled cell. -/
theorem softmax_body_counts (A : Nat → Nat) (RW : Nat → ℚ)
    (acc : BanditState × List ℚ) (bandit : Nat) :
    (SoftmaxActionSelection.body A RW acc bandit).1.counts
      = upd2 (upd2 acc.1.counts bandit (A bandit)
               (acc.1.counts bandit (A bandit) + 1))
          bandit (A bandit)
          (upd2 acc.1.counts bandit (A bandit)
             (acc.1.counts bandit (A bandit) + 1)
             bandit (A bandit) + 1) := rfl

/-- Counts table after one arm visit of the initial run: one increment. -/
theorem arm_body_counts (RW0 : Nat → Nat → ℚ) (bandit : Nat)
    (acc : BanditState × List ℚ) (arm : Nat) :
    (UCB.arm_body RW0 bandit acc arm).1.counts
      = upd2 acc.1.counts bandit arm (acc.1.counts bandit arm + 1) := rfl

/-- The EpsGreedy action is within range: the random arm by the randint
contract, the argmax by npArgmax_lt. -/
theorem eps_action_lt (eps : ℚ) (s : BanditState) (bandit : Nat) (u : ℚ)
    (ra na : Nat) (hna : 0 < na) (hra : ra < na) (hn : s.narms = na) :
    EpsGreedy.get_action eps s bandit u ra < na := by
  unfold EpsGreedy.get_action
  by_cases hc : u < eps
  · rw [if_pos hc]
    exact hra
  · rw [if_neg hc, hn]
    exact npArgmax_lt _ na hna

/-- The UCB action is within range. -/
theorem ucb_action_lt (conf : Nat → Nat → ℚ) (t : Nat) (s : BanditState)
    (bandit na : Nat) (hna : 0 < na) (hn : s.narms = na) :
    UCB.get_action conf t s bandit < na := by
  unfold UCB.get_action
  rw [hn]
  exact npArgmax_lt _ na hna

/-- Row-sum effect of the EpsGreedy body: plus one on its own bandit row. -/
theorem eps_body_rowCount (na : Nat) (eps : ℚ) (U : Nat → ℚ) (RA : Nat → Nat)
    (RW : Nat → ℚ) (acc : BanditState × List ℚ) (i b : Nat)
    (hna : 0 < na) (hRA : RA i < na) (hn : acc.1.narms = na) :
    rowCount na (EpsGreedy.body eps U RA RW acc i).1.counts b
      = rowCount na acc.1.counts b + (if b = i then 1 else 0) := by
  rw [eps_body_counts, rowCount_inc]
  have hact := eps_action_lt eps acc.1 i (U i) (RA i) na hna hRA hn
  by_cases hb : b = i <;> simp [hb, hact]

/-- Row-sum effect of the UCB body: plus two on its own bandit row. -/
theorem ucb_body_rowCount (na : Nat) (conf : Nat → Nat → ℚ) (RW : Nat → ℚ)
    (i : Nat) (acc : BanditState × List ℚ) (bandit b : Nat)
    (hna : 0 < na) (hn : acc.1.narms = na) :
    rowCount na (UCB.body conf RW i acc bandit).1.counts b
      = rowCount na acc.1.counts b + (if b = bandit then 2 else 0) := by
  rw [ucb_body_counts, rowCount_inc, rowCount_inc]
  have hact := ucb_action_lt conf i acc.1 bandit na hna hn
  by_cases hb : b = bandit
  · simp [hb, hact]
  · simp [hb]

/-- Row-sum effect of the Softmax body: plus two on its own bandit row. -/
theorem softmax_body_rowCount (na : Nat) (A : Nat → Nat) (RW : Nat → ℚ)
    (acc : BanditState × List ℚ) (bandit b : Nat)
    (hA : A bandit < na) :
    rowCount na (SoftmaxActionSelection.body A RW acc bandit).1.counts b
      = rowCount na acc.1.counts b + (if b = bandit then 2 else 0) := by
  rw [softmax_body_counts, rowCount_inc, rowCount_inc]
  by_cases hb : b = bandit
  · simp [hb, hA]
  · simp [hb]

/-- Row-sum effect of one arm visit of the initial run. -/
theorem arm_body_rowCount (na : Nat) (RW0 : Nat → Nat → ℚ) (b0 : Nat)
    (acc : BanditState × List ℚ) (arm b : Nat) (harm : arm < na) :
    rowCount na (UCB.arm_body RW0 b0 acc arm).1.counts b
      = rowCount na acc.1.counts b + (if b = b0 then 1 else 0) := by
  rw [arm_body_counts, rowCount_inc]
  by_cases hb : b = b0 <;> simp [hb, harm]

/-- The per-bandit body of the initial run preserves narms. -/
theorem bandit_body_narms (RW0 : Nat → Nat → ℚ) (st : BanditState) (bandit : Nat) :
    (UCB.bandit_body RW0 st bandit).narms = st.narms := by
  show (((List.range st.narms).foldl (UCB.arm_body RW0 bandit) (st, [])).1).narms = st.narms
  exact foldl_proj_const (fun (acc : BanditState × List ℚ) => acc.1.narms) (UCB.arm_body RW0 bandit)
    (List.range st.narms) (fun _ _ _ => rfl) (st, [])

/-- The per-bandit body of the initial run preserves nbandits. -/
theorem bandit_body_nbandits (RW0 : Nat → Nat → ℚ) (st : BanditState) (bandit : Nat) :
    (UCB.bandit_body RW0 st bandit).nbandits = st.nbandits := by
  show (((List.range st.narms).foldl (UCB.arm_body RW0 bandit) (st, [])).1).nbandits = st.nbandits
  exact foldl_proj_const (fun (acc : BanditState × List ℚ) => acc.1.nbandits) (UCB.arm_body RW0 bandit)
    (List.range st.narms) (fun _ _ _ => rfl) (st, [])

/-- Row-sum effect of one bandit of the initial run: plus narms on its own
row. -/
theorem bandit_body_rowCount (na : Nat) (RW0 : Nat → Nat → ℚ) (st : BanditState)
    (b0 b : Nat) (hn : st.narms = na) :
    rowCount na (UCB.bandit_body RW0 st b0).counts b
      = rowCount na st.counts b + (if b = b0 then na else 0) := by
  show rowCount na (((List.range st.narms).foldl (UCB.arm_body RW0 b0) (st, [])).1).counts b = _
  rw [foldl_proj_add (fun (_ : BanditState × List ℚ) => True) (fun acc => rowCount na acc.1.counts b)
      (UCB.arm_body RW0 b0) (if b = b0 then 1 else 0) (List.range st.narms)
      (fun _ _ _ _ => trivial)
      (fun acc arm hm _ =>
        arm_body_rowCount na RW0 b0 acc arm b (hn ▸ List.mem_range.mp hm))
      (st, []) trivial]
  rw [List.length_range, hn]
  by_cases hb : b = b0 <;> simp [hb]

/-- Row sums after the initial run: every row whose bandit index is within
range gains exactly narms. -/
theorem initial_run_rowCount (na nb : Nat) (RW0 : Nat → Nat → ℚ) (s : BanditState)
    (b : Nat) (hn : s.narms = na) (hb : s.nbandits = nb) :
    rowCount na (UCB.initial_run RW0 s).counts b
      = rowCount na s.counts b + na * (List.range nb).count b := by
  unfold UCB.initial_run
  rw [hb]
  exact foldl_proj_count (fun (st : BanditState) => st.narms = na) (fun st b => rowCount na st.counts b)
    (UCB.bandit_body RW0) na (List.range nb)
    (fun st i _ h => (bandit_body_narms RW0 st i).trans h)
    (fun st i b2 _ h => bandit_body_rowCount na RW0 st i b2 h)
    s b hn

/-- One_step of EpsGreedy preserves narms. -/
theorem eps_one_step_narms (eps : ℚ) (U : Nat → ℚ) (RA : Nat → Nat) (RW : Nat → ℚ)
    (s : BanditState) : (EpsGreedy.one_step eps U RA RW s).1.narms = s.narms :=
  foldl_proj_const (fun (acc : BanditState × List ℚ) => acc.1.narms) (EpsGreedy.body eps U RA RW)
    (List.range s.nbandits) (fun _ _ _ => rfl) (s, [])

/-- One_step of EpsGreedy preserves nbandits. -/
theorem eps_one_step_nbandits (eps : ℚ) (U : Nat → ℚ) (RA : Nat → Nat) (RW : Nat → ℚ)
    (s : BanditState) : (EpsGreedy.one_step eps U RA RW s).1.nbandits = s.nbandits :=
  foldl_proj_const (fun (acc : BanditState × List ℚ) => acc.1.nbandits) (EpsGreedy.body eps U RA RW)
    (List.range s.nbandits) (fun _ _ _ => rfl) (s, [])

/-- One_step of UCB preserves narms. -/
theorem ucb_one_step_narms (conf : Nat → Nat → ℚ) (RW : Nat → ℚ) (i : Nat)
    (s : BanditState) : (UCB.one_step conf RW i s).1.narms = s.narms :=
  foldl_proj_const (fun (acc : BanditState × List ℚ) => acc.1.narms) (UCB.body conf RW i)
    (List.range s.nbandits) (fun _ _ _ => rfl) (s, [])

/-- One_step of UCB preserves nbandits. -/
theorem ucb_one_step_nbandits (conf : Nat → Nat → ℚ) (RW : Nat → ℚ) (i : Nat)
    (s : BanditState) : (UCB.one_step conf RW i s).1.nbandits = s.nbandits :=
  foldl_proj_const (fun (acc : BanditState × List ℚ) => acc.1.nbandits) (UCB.body conf RW i)
    (List.range s.nbandits) (fun _ _ _ => rfl) (s, [])

/-- One_step of Softmax preserves narms. -/
theorem softmax_one_step_narms (A : Nat → Nat) (RW : Nat → ℚ)
    (s : BanditState) : (SoftmaxActionSelection.one_step A RW s).1.narms = s.narms :=
  foldl_proj_const (fun (acc : BanditState × List ℚ) => acc.1.narms) (SoftmaxActionSelection.body A RW)
    (List.range s.nbandits) (fun _ _ _ => rfl) (s, [])

/-- One_step of Softmax preserves nbandits. -/
theorem softmax_one_step_nbandits (A : Nat → Nat) (RW : Nat → ℚ)
    (s : BanditState) : (SoftmaxActionSelection.one_step A RW s).1.nbandits = s.nbandits :=
  foldl_proj_const (fun (acc : BanditState × List ℚ) => acc.1.nbandits) (SoftmaxActionSelection.body A RW)
    (List.range s.nbandits) (fun _ _ _ => rfl) (s, [])

/-- The initial run preserves narms. -/
theorem initial_run_narms (RW0 : Nat → Nat → ℚ) (s : BanditState) :
    (UCB.initial_run RW0 s).narms = s.narms :=
  foldl_proj_const (fun (st : BanditState) => st.narms) (UCB.bandit_body RW0)
    (List.range s.nbandits) (fun st i _ => bandit_body_narms RW0 st i) s

/-- The initial run preserves nbandits. -/
theorem initial_run_nbandits (RW0 : Nat → Nat → ℚ) (s : BanditState) :
    (UCB.initial_run RW0 s).nbandits = s.nbandits :=
  foldl_proj_const (fun (st : BanditState) => st.nbandits) (UCB.bandit_body RW0)
    (List.range s.nbandits) (fun st i _ => bandit_body_nbandits RW0 st i) s

/-- Row-sum effect of EpsGreedy.one_step: plus one per in-range bandit row. -/
theorem eps_one_step_rowCount (na : Nat) (eps : ℚ) (U : Nat → ℚ) (RA : Nat → Nat)
    (RW : Nat → ℚ) (s : BanditState) (b : Nat)
    (hna : 0 < na) (hRA : ∀ bd, RA bd < na) (hn : s.narms = na) :
    rowCount na (EpsGreedy.one_step eps U RA RW s).1.counts b
      = rowCount na s.counts b + 1 * (List.range s.nbandits).count b :=
  foldl_proj_count (fun (acc : BanditState × List ℚ) => acc.1.narms = na)
    (fun acc b => rowCount na acc.1.counts b) (EpsGreedy.body eps U RA RW) 1
    (List.range s.nbandits) (fun _ _ _ h => h)
    (fun acc i b2 _ h => eps_body_rowCount na eps U RA RW acc i b2 hna (hRA i) h)
    (s, []) b hn

/-- Row-sum effect of UCB.one_step: plus two per in-range bandit row. -/
theorem ucb_one_step_rowCount (na : Nat) (conf : Nat → Nat → ℚ) (RW : Nat → ℚ)
    (i : Nat) (s : BanditState) (b : Nat) (hna : 0 < na) (hn : s.narms = na) :
    rowCount na (UCB.one_step conf RW i s).1.counts b
      = rowCount na s.counts b + 2 * (List.range s.nbandits).count b :=
  foldl_proj_count (fun (acc : BanditState × List ℚ) => acc.1.narms = na)
    (fun acc b => rowCount na acc.1.counts b) (UCB.body conf RW i) 2
    (List.range s.nbandits) (fun _ _ _ h => h)
    (fun acc bd b2 _ h => ucb_body_rowCount na conf RW i acc bd b2 hna h)
    (s, []) b hn

/-- Row-sum effect of Softmax.one_step: plus two per in-range bandit row. -/
theorem softmax_one_step_rowCount (na : Nat) (A : Nat → Nat) (RW : Nat → ℚ)
    (s : BanditState) (b : Nat) (hA : ∀ bd, A bd < na) (hn : s.narms = na) :
    rowCount na (SoftmaxActionSelection.one_step A RW s).1.counts b
      = rowCount na s.counts b + 2 * (List.range s.nbandits).count b :=
  foldl_proj_count (fun (acc : BanditState × List ℚ) => acc.1.narms = na)
    (fun acc b => rowCount na acc.1.counts b) (SoftmaxActionSelection.body A RW) 2
    (List.range s.nbandits) (fun _ _ _ h => h)
    (fun acc bd b2 _ _ => softmax_body_rowCount na A RW acc bd b2 (hA bd))
    (s, []) b hn

/-- The EpsGreedy body preserves the regret invariant. -/
theorem eps_body_RegInv (na : Nat) (eps : ℚ) (U : Nat → ℚ) (RA : Nat → Nat)
    (RW : Nat → ℚ) (acc : BanditState × List ℚ) (i : Nat)
    (hna : 0 < na) (hRA : RA i < na) (hn : acc.1.narms = na) (h : RegInv acc.1) :
    RegInv (EpsGreedy.body eps U RA RW acc i).1 := by
  have hact : EpsGreedy.get_action eps acc.1 i (U i) (RA i) < acc.1.narms := by
    rw [hn]
    exact eps_action_lt eps acc.1 i (U i) (RA i) na hna hRA hn
  exact update_regret_RegInv acc.1 i _ hact h

/-- The UCB body preserves the regret invariant. -/
theorem ucb_body_RegInv (na : Nat) (conf : Nat → Nat → ℚ) (RW : Nat → ℚ) (i : Nat)
    (acc : BanditState × List ℚ) (bandit : Nat)
    (hna : 0 < na) (hn : acc.1.narms = na) (h : RegInv acc.1) :
    RegInv (UCB.body conf RW i acc bandit).1 := by
  have hact : UCB.get_action conf i acc.1 bandit < na :=
    ucb_action_lt conf i acc.1 bandit na hna hn
  exact update_regret_RegInv
    (((acc.1.countsInc bandit _).qUpdate bandit _ (RW bandit)).countsInc bandit _)
    bandit _ (by simpa using hn ▸ hact) h

/-- The Softmax body preserves the regret invariant. -/
theorem softmax_body_RegInv (na : Nat) (A : Nat → Nat) (RW : Nat → ℚ)
    (acc : BanditState × List ℚ) (bandit : Nat)
    (hA : A bandit < na) (hn : acc.1.narms = na) (h : RegInv acc.1) :
    RegInv (SoftmaxActionSelection.body A RW acc bandit).1 :=
  update_regret_RegInv
    (((acc.1.countsInc bandit _).qUpdate bandit _ (RW bandit)).countsInc bandit _)
    bandit _ (by simpa using hn ▸ hA) h

/-- The per-arm body of the initial run preserves the regret invariant. -/
theorem arm_body_RegInv (RW0 : Nat → Nat → ℚ) (b0 : Nat)
    (acc : BanditState × List ℚ) (arm : Nat)
    (harm : arm < acc.1.narms) (h : RegInv acc.1) :
    RegInv (UCB.arm_body RW0 b0 acc arm).1 :=
  update_regret_RegInv ((acc.1.countsInc b0 arm).qUpdate b0 arm (RW0 b0 arm))
    b0 arm (by simpa using harm) h

/-- One_step of EpsGreedy preserves the regret invariant. -/
theorem eps_one_step_RegInv (na : Nat) (eps : ℚ) (U : Nat → ℚ) (RA : Nat → Nat)
    (RW : Nat → ℚ) (s : BanditState)
    (hna : 0 < na) (hRA : ∀ bd, RA bd < na) (hn : s.narms = na) (h : RegInv s) :
    RegInv (EpsGreedy.one_step eps U RA RW s).1 :=
  (foldl_pres (fun (acc : BanditState × List ℚ) => acc.1.narms = na ∧ RegInv acc.1)
    (EpsGreedy.body eps U RA RW) (List.range s.nbandits)
    (fun acc i _ hp =>
      ⟨hp.1, eps_body_RegInv na eps U RA RW acc i hna (hRA i) hp.1 hp.2⟩)
    (s, []) ⟨hn, h⟩).2

/-- One_step of UCB preserves the regret invariant. -/
theorem ucb_one_step_RegInv (na : Nat) (conf : Nat → Nat → ℚ) (RW : Nat → ℚ)
    (i : Nat) (s : BanditState)
    (hna : 0 < na) (hn : s.narms = na) (h : RegInv s) :
    RegInv (UCB.one_step conf RW i s).1 :=
  (foldl_pres (fun (acc : BanditState × List ℚ) => acc.1.narms = na ∧ RegInv acc.1)
    (UCB.body conf RW i) (List.range s.nbandits)
    (fun acc bd _ hp =>
      ⟨hp.1, ucb_body_RegInv na conf RW i acc bd hna hp.1 hp.2⟩)
    (s, []) ⟨hn, h⟩).2

/-- One_step of Softmax preserves the regret invariant. -/
theorem softmax_one_step_RegInv (na : Nat) (A : Nat → Nat) (RW : Nat → ℚ)
    (s : BanditState)
    (hA : ∀ bd, A bd < na) (hn : s.narms = na) (h : RegInv s) :
    RegInv (SoftmaxActionSelection.one_step A RW s).1 :=
  (foldl_pres (fun (acc : BanditState × List ℚ) => acc.1.narms = na ∧ RegInv acc.1)
    (SoftmaxActionSelection.body A RW) (List.range s.nbandits)
    (fun acc bd _ hp =>
      ⟨hp.1, softmax_body_RegInv na A RW acc bd (hA bd) hp.1 hp.2⟩)
    (s, []) ⟨hn, h⟩).2

/-- The per-bandit body of the initial run preserves the regret invariant. -/
theorem bandit_body_RegInv (RW0 : Nat → Nat → ℚ) (st : BanditState) (b0 : Nat)
    (h : RegInv st) : RegInv (UCB.bandit_body RW0 st b0) :=
  (foldl_pres (fun (acc : BanditState × List ℚ) => acc.1.narms = st.narms ∧ RegInv acc.1)
    (UCB.arm_body RW0 b0) (List.range st.narms)
    (fun acc arm hm hp =>
      ⟨hp.1, arm_body_RegInv RW0 b0 acc arm (hp.1 ▸ List.mem_range.mp hm) hp.2⟩)
    (st, []) ⟨rfl, h⟩).2

/-- The initial run preserves the regret invariant. -/
theorem initial_run_RegInv (RW0 : Nat → Nat → ℚ) (s : BanditState)
    (h : RegInv s) : RegInv (UCB.initial_run RW0 s) :=
  foldl_pres RegInv (UCB.bandit_body RW0) (List.range s.nbandits)
    (fun st b0 _ hp => bandit_body_RegInv RW0 st b0 hp) s h

/-- EpsGreedy.learn preserves the regret invariant. -/
theorem eps_learn_RegInv (na : Nat) (eps : ℚ) (U : Nat → Nat → ℚ)
    (RA : Nat → Nat → Nat) (RW : Nat → Nat → ℚ) (s : BanditState) (n : Nat)
    (hna : 0 < na) (hRA : ∀ i bd, RA i bd < na) (hn : s.narms = na) (h : RegInv s) :
    RegInv (EpsGreedy.learn eps U RA RW s n) :=
  (foldl_pres (fun (st : BanditState) => st.narms = na ∧ RegInv st)
    (fun st i =>
      let p := EpsGreedy.one_step eps (U i) (RA i) (RW i) st
      { p.1 with avg_reward := p.1.avg_reward ++ [npMean p.2] }) (List.range n)
    (fun st i _ hp =>
      ⟨(eps_one_step_narms eps (U i) (RA i) (RW i) st).trans hp.1,
       eps_one_step_RegInv na eps (U i) (RA i) (RW i) st hna (hRA i) hp.1 hp.2⟩)
    s ⟨hn, h⟩).2

/-- UCB.learn preserves the regret invariant. -/
theorem ucb_learn_RegInv (na : Nat) (conf : Nat → Nat → ℚ) (RW0 : Nat → Nat → ℚ)
    (RW : Nat → Nat → ℚ) (s : BanditState) (n : Nat)
    (hna : 0 < na) (hn : s.narms = na) (h : RegInv s) :
    RegInv (UCB.learn conf RW0 RW s n) :=
  (foldl_pres (fun (st : BanditState) => st.narms = na ∧ RegInv st)
    (fun st i =>
      let p := UCB.one_step conf (RW i) i st
      { p.1 with avg_reward := p.1.avg_reward ++ [npMean p.2] }) (List.range n)
    (fun st i _ hp =>
      ⟨(ucb_one_step_narms conf (RW i) i st).trans hp.1,
       ucb_one_step_RegInv na conf (RW i) i st hna hp.1 hp.2⟩)
    (UCB.initial_run RW0 s)
    ⟨(initial_run_narms RW0 s).trans hn, initial_run_RegInv RW0 s h⟩).2

/-- SoftmaxActionSelection.learn preserves the regret invariant. -/
theorem softmax_learn_RegInv (na : Nat) (A : Nat → Nat → Nat)
    (RW0 : Nat → Nat → ℚ) (RW : Nat → Nat → ℚ) (s : BanditState) (n : Nat)
    (hA : ∀ i bd, A i bd < na) (hn : s.narms = na) (h : RegInv s) :
    RegInv (SoftmaxActionSelection.learn A RW0 RW s n) := by
  unfold SoftmaxActionSelection.learn
  rw [softmax_initial_run_eq]
  exact (foldl_pres (fun (st : BanditState) => st.narms = na ∧ RegInv st)
    (fun st i =>
      let p := SoftmaxActionSelection.one_step (A i) (RW i) st
      { p.1 with avg_reward := p.1.avg_reward ++ [npMean p.2] }) (List.range n)
    (fun st i _ hp =>
      ⟨(softmax_one_step_narms (A i) (RW i) st).trans hp.1,
       softmax_one_step_RegInv na (A i) (RW i) st (hA i) hp.1 hp.2⟩)
    (UCB.initial_run RW0 s)
    ⟨(initial_run_narms RW0 s).trans hn, initial_run_RegInv RW0 s h⟩).2

/-- The fresh state satisfies the regret invariant. -/
theorem init_RegInv (nb na : Nat) : RegInv (GaussianBandits.init nb na) := by
  refine ⟨⟨?_, ?_⟩, rfl⟩
  · exact List.chain'_singleton 0
  · intro x hx
    simp [GaussianBandits.init] at hx
    simp [hx]

/-- One_step of EpsGreedy leaves avg_reward alone (only learn appends). -/
theorem eps_one_step_avg (eps : ℚ) (U : Nat → ℚ) (RA : Nat → Nat) (RW : Nat → ℚ)
    (s : BanditState) : (EpsGreedy.one_step eps U RA RW s).1.avg_reward = s.avg_reward :=
  foldl_proj_const (fun (acc : BanditState × List ℚ) => acc.1.avg_reward)
    (EpsGreedy.body eps U RA RW) (List.range s.nbandits) (fun _ _ _ => rfl) (s, [])

/-- One_step of UCB leaves avg_reward alone. -/
theorem ucb_one_step_avg (conf : Nat → Nat → ℚ) (RW : Nat → ℚ) (i : Nat)
    (s : BanditState) : (UCB.one_step conf RW i s).1.avg_reward = s.avg_reward :=
  foldl_proj_const (fun (acc : BanditState × List ℚ) => acc.1.avg_reward)
    (UCB.body conf RW i) (List.range s.nbandits) (fun _ _ _ => rfl) (s, [])

/-- One_step of Softmax leaves avg_reward alone. -/
theorem softmax_one_step_avg (A : Nat → Nat) (RW : Nat → ℚ)
    (s : BanditState) :
    (SoftmaxActionSelection.one_step A RW s).1.avg_reward = s.avg_reward :=
  foldl_proj_const (fun (acc : BanditState × List ℚ) => acc.1.avg_reward)
    (SoftmaxActionSelection.body A RW) (List.range s.nbandits) (fun _ _ _ => rfl) (s, [])

/-- R_step of EpsGreedy.one_step is the per-bandit reward list in bandit
order. -/
theorem eps_one_step_snd (eps : ℚ) (U : Nat → ℚ) (RA : Nat → Nat) (RW : Nat → ℚ)
    (s : BanditState) :
    (EpsGreedy.one_step eps U RA RW s).2 = (List.range s.nbandits).map RW := by
  have h := foldl_snd_map (g := EpsGreedy.body eps U RA RW) RW (fun _ _ => rfl)
    (List.range s.nbandits) (s, [])
  simpa using h

/-- R_step of UCB.one_step is the per-bandit reward list in bandit order. -/
theorem ucb_one_step_snd (conf : Nat → Nat → ℚ) (RW : Nat → ℚ) (i : Nat)
    (s : BanditState) :
    (UCB.one_step conf RW i s).2 = (List.range s.nbandits).map RW := by
  have h := foldl_snd_map (g := UCB.body conf RW i) RW (fun _ _ => rfl)
    (List.range s.nbandits) (s, [])
  simpa using h

/-- R_step of Softmax.one_step is the per-bandit reward list in bandit
order. -/
theorem softmax_one_step_snd (A : Nat → Nat) (RW : Nat → ℚ) (s : BanditState) :
    (SoftmaxActionSelection.one_step A RW s).2 = (List.range s.nbandits).map RW := by
  have h := foldl_snd_map (g := SoftmaxActionSelection.body A RW) RW (fun _ _ => rfl)
    (List.range s.nbandits) (s, [])
  simpa using h

/-- bandit_reward of one bandit of the initial run is its per-arm reward list
in arm order. -/
theorem ucb_inner_snd (RW0 : Nat → Nat → ℚ) (b0 : Nat) (st : BanditState) :
    ((List.range st.narms).foldl (UCB.arm_body RW0 b0) (st, [])).2
      = (List.range st.narms).map (RW0 b0) := by
  have h := foldl_snd_map (g := UCB.arm_body RW0 b0) (RW0 b0) (fun _ _ => rfl)
    (List.range st.narms) (st, [])
  simpa using h

/-- The inner fold of the initial run leaves avg_reward alone. -/
theorem ucb_inner_avg (RW0 : Nat → Nat → ℚ) (b0 : Nat) (st : BanditState) :
    (((List.range st.narms).foldl (UCB.arm_body RW0 b0) (st, [])).1).avg_reward
      = st.avg_reward :=
  foldl_proj_const (fun (acc : BanditState × List ℚ) => acc.1.avg_reward)
    (UCB.arm_body RW0 b0) (List.range st.narms) (fun _ _ _ => rfl) (st, [])

/-- One bandit of the initial run appends exactly one avg_reward entry: the
mean across that bandit's arms of its own rewards. -/
theorem bandit_body_avg (RW0 : Nat → Nat → ℚ) (st : BanditState) (b0 : Nat) :
    (UCB.bandit_body RW0 st b0).avg_reward
      = st.avg_reward ++ [npMean ((List.range st.narms).map (RW0 b0))] := by
  show (((List.range st.narms).foldl (UCB.arm_body RW0 b0) (st, [])).1).avg_reward
      ++ [npMean ((List.range st.narms).foldl (UCB.arm_body RW0 b0) (st, [])).2] = _
  rw [ucb_inner_avg, ucb_inner_snd]

/-- avg_reward after the initial run: one entry per bandit, each the mean
across that bandit's arms. -/
theorem initial_run_avg (na nb : Nat) (RW0 : Nat → Nat → ℚ) (s : BanditState)
    (hn : s.narms = na) (hb : s.nbandits = nb) :
    (UCB.initial_run RW0 s).avg_reward
      = s.avg_reward
        ++ (List.range nb).map (fun b0 => npMean ((List.range na).map (RW0 b0))) := by
  unfold UCB.initial_run
  rw [hb]
  exact foldl_proj_append (fun (st : BanditState) => st.narms = na)
    (fun st => st.avg_reward) (UCB.bandit_body RW0)
    (fun b0 => npMean ((List.range na).map (RW0 b0))) (List.range nb)
    (fun st i _ hp => (bandit_body_narms RW0 st i).trans hp)
    (fun st b0 _ hp => by
      show (UCB.bandit_body RW0 st b0).avg_reward
        = st.avg_reward ++ [npMean ((List.range na).map (RW0 b0))]
      rw [bandit_body_avg, hp]) s hn

/-- avg_reward after EpsGreedy.learn: one entry per timestep, each the mean
across bandits of that timestep's rewards. -/
theorem eps_learn_avg (nb : Nat) (eps : ℚ) (U : Nat → Nat → ℚ)
    (RA : Nat → Nat → Nat) (RW : Nat → Nat → ℚ) (s : BanditState) (n : Nat)
    (hb : s.nbandits = nb) :
    (EpsGreedy.learn eps U RA RW s n).avg_reward
      = s.avg_reward
        ++ (List.range n).map (fun i => npMean ((List.range nb).map (RW i))) := by
  unfold EpsGreedy.learn
  exact foldl_proj_append (fun (st : BanditState) => st.nbandits = nb)
    (fun st => st.avg_reward)
    (fun st i =>
      let p := EpsGreedy.one_step eps (U i) (RA i) (RW i) st
      { p.1 with avg_reward := p.1.avg_reward ++ [npMean p.2] })
    (fun i => npMean ((List.range nb).map (RW i))) (List.range n)
    (fun st i _ hp => (eps_one_step_nbandits eps (U i) (RA i) (RW i) st).trans hp)
    (fun st i _ hp => by
      show (EpsGreedy.one_step eps (U i) (RA i) (RW i) st).1.avg_reward
          ++ [npMean (EpsGreedy.one_step eps (U i) (RA i) (RW i) st).2] = _
      rw [eps_one_step_avg, eps_one_step_snd, hp]) s hb

/-- avg_reward after UCB.learn: per-bandit entries from the initial run, then
one per-timestep cross-bandit mean per main-loop round. -/
theorem ucb_learn_avg (na nb : Nat) (conf : Nat → Nat → ℚ) (RW0 : Nat → Nat → ℚ)
    (RW : Nat → Nat → ℚ) (s : BanditState) (n : Nat)
    (hn : s.narms = na) (hb : s.nbandits = nb) :
    (UCB.learn conf RW0 RW s n).avg_reward
      = s.avg_reward
        ++ (List.range nb).map (fun b0 => npMean ((List.range na).map (RW0 b0)))
        ++ (List.range n).map (fun i => npMean ((List.range nb).map (RW i))) := by
  unfold UCB.learn
  rw [foldl_proj_append (fun (st : BanditState) => st.nbandits = nb)
    (fun st => st.avg_reward)
    (fun st i =>
      let p := UCB.one_step conf (RW i) i st
      { p.1 with avg_reward := p.1.avg_reward ++ [npMean p.2] })
    (fun i => npMean ((List.range nb).map (RW i))) (List.range n)
    (fun st i _ hp => (ucb_one_step_nbandits conf (RW i) i st).trans hp)
    (fun st i _ hp => by
      show (UCB.one_step conf (RW i) i st).1.avg_reward
          ++ [npMean (UCB.one_step conf (RW i) i st).2] = _
      rw [ucb_one_step_avg, ucb_one_step_snd, hp])
    (UCB.initial_run RW0 s) ((initial_run_nbandits RW0 s).trans hb),
    initial_run_avg na nb RW0 s hn hb]

/-- avg_reward after Softmax.learn: per-bandit entries from the initial run,
then one per-timestep cross-bandit mean per main-loop round. -/
theorem softmax_learn_avg (na nb : Nat) (A : Nat → Nat → Nat)
    (RW0 : Nat → Nat → ℚ) (RW : Nat → Nat → ℚ) (s : BanditState) (n : Nat)
    (hn : s.narms = na) (hb : s.nbandits = nb) :
    (SoftmaxActionSelection.learn A RW0 RW s n).avg_reward
      = s.avg_reward
        ++ (List.range nb).map (fun b0 => npMean ((List.range na).map (RW0 b0)))
        ++ (List.range n).map (fun i => npMean ((List.range nb).map (RW i))) := by
  unfold SoftmaxActionSelection.learn
  rw [softmax_initial_run_eq]
  rw [foldl_proj_append (fun (st : BanditState) => st.nbandits = nb)
    (fun st => st.avg_reward)
    (fun st i =>
      let p := SoftmaxActionSelection.one_step (A i) (RW i) st
      { p.1 with avg_reward := p.1.avg_reward ++ [npMean p.2] })
    (fun i => npMean ((List.range nb).map (RW i))) (List.range n)
    (fun st i _ hp => (softmax_one_step_nbandits (A i) (RW i) st).trans hp)
    (fun st i _ hp => by
      show (SoftmaxActionSelection.one_step (A i) (RW i) st).1.avg_reward
          ++ [npMean (SoftmaxActionSelection.one_step (A i) (RW i) st).2] = _
      rw [softmax_one_step_avg, softmax_one_step_snd, hp])
    (UCB.initial_run RW0 s) ((initial_run_nbandits RW0 s).trans hb),
    initial_run_avg na nb RW0 s hn hb]

/-- One arm visit of the initial run appends one regret snapshot. -/
theorem arm_body_regrets_len (RW0 : Nat → Nat → ℚ) (b0 : Nat)
    (acc : BanditState × List ℚ) (arm : Nat) :
    (UCB.arm_body RW0 b0 acc arm).1.regrets.length = acc.1.regrets.length + 1 := by
  show (((acc.1.countsInc b0 arm).qUpdate b0 arm (RW0 b0 arm)).update_regret b0 arm).regrets.length = _
  simp [BanditState.update_regret]

/-- One bandit of the initial run appends narms regret snapshots. -/
theorem bandit_body_regrets_len (RW0 : Nat → Nat → ℚ) (st : BanditState) (b0 : Nat) :
    (UCB.bandit_body RW0 st b0).regrets.length = st.regrets.length + st.narms := by
  show (((List.range st.narms).foldl (UCB.arm_body RW0 b0) (st, [])).1).regrets.length = _
  have h := foldl_proj_add (fun (_ : BanditState × List ℚ) => True)
    (fun acc => acc.1.regrets.length) (UCB.arm_body RW0 b0) 1 (List.range st.narms)
    (fun _ _ _ _ => trivial)
    (fun acc arm _ _ => arm_body_regrets_len RW0 b0 acc arm)
    (st, []) trivial
  simpa using h

/-- The initial run appends nbandits times narms regret snapshots. -/
theorem initial_run_regrets_len (na nb : Nat) (RW0 : Nat → Nat → ℚ)
    (s : BanditState) (hn : s.narms = na) (hb : s.nbandits = nb) :
    (UCB.initial_run RW0 s).regrets.length = s.regrets.length + na * nb := by
  unfold UCB.initial_run
  rw [hb]
  have h := foldl_proj_add (fun (st : BanditState) => st.narms = na)
    (fun st => st.regrets.length) (UCB.bandit_body RW0) na (List.range nb)
    (fun st i _ hp => (bandit_body_narms RW0 st i).trans hp)
    (fun st i _ hp => by
      show (UCB.bandit_body RW0 st i).regrets.length = st.regrets.length + na
      rw [bandit_body_regrets_len, hp])
    s hn
  simpa using h

/-- Cell-level extract of the EpsGreedy per-decision update of one (bandit,
arm) cell: Q += (r - Q)/(counts + 1) followed by counts += 1, exactly the
sequencing of EpsGreedy.one_step. -/
def sampleStep (p : ℚ × Nat) (r : ℚ) : ℚ × Nat :=
  (p.1 + (r - p.1) / ((p.2 : ℚ) + 1), p.2 + 1)

/-- Iterating the cell update from the fresh cell (Q = 0, counts = 0) over a
reward sequence. -/
def runUpdates (rs : List ℚ) : ℚ × Nat := rs.foldl sampleStep (0, 0)

/-- General invariant of the cell update from a state holding the mean: from
estimate q with count c at least 1, folding a reward list yields the combined
weighted mean with the count advanced by the list length. -/
theorem sampleStep_foldl :
    ∀ (rs : List ℚ) (q : ℚ) (c : Nat), 1 ≤ c →
      rs.foldl sampleStep (q, c)
        = ((q * c + rs.sum) / ((c : ℚ) + rs.length), c + rs.length) := by
  intro rs
  induction rs with
  | nil =>
      intro q c hc
      have hc0 : ((c : ℚ)) ≠ 0 := by
        have : (0 : ℚ) < (c : ℚ) := by exact_mod_cast hc
        linarith
      simp [Prod.ext_iff, mul_div_assoc, mul_div_cancel_right₀ _ hc0]
  | cons r rs ih =>
      intro q c hc
      rw [List.foldl_cons]
      show List.foldl sampleStep (q + (r - q) / ((c : ℚ) + 1), c + 1) rs = _
      rw [ih _ (c + 1) (Nat.le_succ_of_le hc)]
      have hc1 : ((c : ℚ) + 1) ≠ 0 := by positivity
      have hc2 : ((c : ℚ) + 1 + (rs.length : ℚ)) ≠ 0 := by positivity
      have hc3 : ((c : ℚ) + ((rs.length : ℚ) + 1)) ≠ 0 := by positivity
      simp only [Prod.ext_iff, List.sum_cons, List.length_cons]
      constructor
      · push_cast
        field_simp
        ring
      · omega

/-- The iterated cell update computes the arithmetic mean of the rewards and
counts the samples (for the empty list, division by zero yields zero in the
rational model). -/
theorem runUpdates_eq (rs : List ℚ) :
    runUpdates rs = (rs.sum / (rs.length : ℚ), rs.length) := by
  cases rs with
  | nil => simp [runUpdates]
  | cons r rs =>
      unfold runUpdates
      rw [List.foldl_cons]
      have h1 : sampleStep (0, 0) r = (r, 1) := by
        simp [sampleStep]
      rw [h1, sampleStep_foldl rs r 1 (le_refl 1)]
      simp only [Prod.ext_iff, List.sum_cons, List.length_cons]
      constructor
      · push_cast
        ring_nf
      · omega

/-- Cells outside the target (bandit, arm) pair are untouched by one arm
visit of the initial run. -/
theorem arm_body_cell_other (RW0 : Nat → Nat → ℚ) (b0 : Nat)
    (acc : BanditState × List ℚ) (arm b a : Nat) (h : ¬ (b = b0 ∧ a = arm)) :
    (UCB.arm_body RW0 b0 acc arm).1.Q b a = acc.1.Q b a ∧
    (UCB.arm_body RW0 b0 acc arm).1.counts b a = acc.1.counts b a := by
  constructor
  · show upd2 acc.1.Q b0 arm _ b a = _
    exact upd2_other _ _ _ _ _ _ h
  · show upd2 acc.1.counts b0 arm _ b a = _
    exact upd2_other _ _ _ _ _ _ h

/-- Effect of one arm visit of the initial run on its own cell: the count is
incremented before the Q update, so the denominator is the old count plus
two. -/
theorem arm_body_cell_hit (RW0 : Nat → Nat → ℚ) (b0 : Nat)
    (acc : BanditState × List ℚ) (arm : Nat) :
    (UCB.arm_body RW0 b0 acc arm).1.Q b0 arm
      = acc.1.Q b0 arm
        + (RW0 b0 arm - acc.1.Q b0 arm) / ((acc.1.counts b0 arm : ℚ) + 1 + 1) ∧
    (UCB.arm_body RW0 b0 acc arm).1.counts b0 arm = acc.1.counts b0 arm + 1 := by
  have h1 : (UCB.arm_body RW0 b0 acc arm).1.Q
      = upd2 acc.1.Q b0 arm
          (acc.1.Q b0 arm + (RW0 b0 arm - acc.1.Q b0 arm)
            / (((upd2 acc.1.counts b0 arm (acc.1.counts b0 arm + 1) b0 arm : Nat) : ℚ)
              + 1)) := rfl
  have h2 : (UCB.arm_body RW0 b0 acc arm).1.counts
      = upd2 acc.1.counts b0 arm (acc.1.counts b0 arm + 1) := rfl
  constructor
  · rw [h1, upd2_same, upd2_same]
    push_cast
    ring
  · rw [h2, upd2_same]

/-- The inner fold over arms 0..k-1 leaves cells of other bandits and cells
with arm index at least k untouched. -/
theorem arm_fold_untouched (RW0 : Nat → Nat → ℚ) (b0 : Nat) :
    ∀ (k : Nat) (acc : BanditState × List ℚ) (b a : Nat), (b ≠ b0 ∨ ¬ a < k) →
      ((List.range k).foldl (UCB.arm_body RW0 b0) acc).1.Q b a = acc.1.Q b a ∧
      ((List.range k).foldl (UCB.arm_body RW0 b0) acc).1.counts b a
        = acc.1.counts b a := by
  intro k
  induction k with
  | zero => intro acc b a _; exact ⟨rfl, rfl⟩
  | succ k ih =>
      intro acc b a h
      rw [List.range_succ, List.foldl_append, List.foldl_cons, List.foldl_nil]
      have h2 : b ≠ b0 ∨ ¬ a < k := by
        rcases h with h1 | h1
        · exact Or.inl h1
        · exact Or.inr (fun hlt => h1 (Nat.lt_succ_of_lt hlt))
      have h3 : ¬ (b = b0 ∧ a = k) := by
        rintro ⟨hb, ha⟩
        rcases h with h1 | h1
        · exact h1 hb
        · exact h1 (ha ▸ Nat.lt_succ_self k)
      have h4 := arm_body_cell_other RW0 b0 ((List.range k).foldl (UCB.arm_body RW0 b0) acc) k b a h3
      have h5 := ih acc b a h2
      exact ⟨h4.1.trans h5.1, h4.2.trans h5.2⟩

/-- The inner fold over arms 0..k-1, started on cells that are zero, sets
each visited cell of its own bandit to half its sampled reward with count
one. -/
theorem arm_fold_done (RW0 : Nat → Nat → ℚ) (b0 : Nat) :
    ∀ (k : Nat) (acc : BanditState × List ℚ) (a : Nat), a < k →
      acc.1.Q b0 a = 0 → acc.1.counts b0 a = 0 →
      ((List.range k).foldl (UCB.arm_body RW0 b0) acc).1.Q b0 a = RW0 b0 a / 2 ∧
      ((List.range k).foldl (UCB.arm_body RW0 b0) acc).1.counts b0 a = 1 := by
  intro k
  induction k with
  | zero => intro acc a ha; cases (Nat.not_lt_zero a ha)
  | succ k ih =>
      intro acc a ha hQ hc
      rw [List.range_succ, List.foldl_append, List.foldl_cons, List.foldl_nil]
      by_cases hak : a < k
      · have h5 := ih acc a hak hQ hc
        have h3 : ¬ (b0 = b0 ∧ a = k) := by
          rintro ⟨_, hha⟩
          exact (Nat.lt_irrefl k) (hha ▸ hak)
        have h4 := arm_body_cell_other RW0 b0
          ((List.range k).foldl (UCB.arm_body RW0 b0) acc) k b0 a h3
        exact ⟨h4.1.trans h5.1, h4.2.trans h5.2⟩
      · have hak2 : a = k := by omega
        rw [hak2] at hQ hc ⊢
        have h5 := arm_fold_untouched RW0 b0 k acc b0 k (Or.inr (Nat.lt_irrefl k))
        have h4 := arm_body_cell_hit RW0 b0
          ((List.range k).foldl (UCB.arm_body RW0 b0) acc) k
        constructor
        · rw [h4.1, h5.1, h5.2, hQ, hc]
          norm_num
        · rw [h4.2, h5.2, hc]

/-- One bandit of the initial run leaves other bandit rows untouched. -/
theorem bandit_body_cell_other (RW0 : Nat → Nat → ℚ) (st : BanditState)
    (b0 b a : Nat) (hne : b ≠ b0) :
    (UCB.bandit_body RW0 st b0).Q b a = st.Q b a ∧
    (UCB.bandit_body RW0 st b0).counts b a = st.counts b a := by
  have h := arm_fold_untouched RW0 b0 st.narms (st, []) b a (Or.inl hne)
  exact h

/-- One bandit of the initial run sets each of its own zero cells within
range to half the sampled reward with count one. -/
theorem bandit_body_cell_done (RW0 : Nat → Nat → ℚ) (st : BanditState)
    (b0 a : Nat) (ha : a < st.narms) (hQ : st.Q b0 a = 0) (hc : st.counts b0 a = 0) :
    (UCB.bandit_body RW0 st b0).Q b0 a = RW0 b0 a / 2 ∧
    (UCB.bandit_body RW0 st b0).counts b0 a = 1 := by
  have h := arm_fold_done RW0 b0 st.narms (st, []) a ha hQ hc
  exact h

/-- The outer fold of the initial run over bandits 0..k-1 leaves rows with
bandit index at least k untouched. -/
theorem bandit_fold_untouched (RW0 : Nat → Nat → ℚ) :
    ∀ (k : Nat) (st : BanditState) (b a : Nat), ¬ b < k →
      ((List.range k).foldl (UCB.bandit_body RW0) st).Q b a = st.Q b a ∧
      ((List.range k).foldl (UCB.bandit_body RW0) st).counts b a = st.counts b a := by
  intro k
  induction k with
  | zero => intro st b a _; exact ⟨rfl, rfl⟩
  | succ k ih =>
      intro st b a h
      rw [List.range_succ, List.foldl_append, List.foldl_cons, List.foldl_nil]
      have h2 : ¬ b < k := fun hlt => h (Nat.lt_succ_of_lt hlt)
      have h3 : b ≠ k := fun hb => h (hb ▸ Nat.lt_succ_self k)
      have h4 := bandit_body_cell_other RW0 ((List.range k).foldl (UCB.bandit_body RW0) st) k b a h3
      have h5 := ih st b a h2
      exact ⟨h4.1.trans h5.1, h4.2.trans h5.2⟩

/-- The outer fold of the initial run over bandits 0..k-1, starting from a
state whose cells are all zero, sets every visited in-range cell to half its
sampled reward with count one. -/
theorem bandit_fold_done (RW0 : Nat → Nat → ℚ) (na : Nat) :
    ∀ (k : Nat) (st : BanditState) (b a : Nat), b < k → a < na →
      st.narms = na → (∀ b2 a2, st.Q b2 a2 = 0) → (∀ b2 a2, st.counts b2 a2 = 0) →
      ((List.range k).foldl (UCB.bandit_body RW0) st).Q b a = RW0 b a / 2 ∧
      ((List.range k).foldl (UCB.bandit_body RW0) st).counts b a = 1 := by
  intro k
  induction k with
  | zero => intro st b a hb; cases (Nat.not_lt_zero b hb)
  | succ k ih =>
      intro st b a hb ha hn hQ hc
      rw [List.range_succ, List.foldl_append, List.foldl_cons, List.foldl_nil]
      by_cases hbk : b < k
      · have h5 := ih st b a hbk ha hn hQ hc
        have h4 := bandit_body_cell_other RW0
          ((List.range k).foldl (UCB.bandit_body RW0) st) k b a
          (fun hbe => (Nat.lt_irrefl k) (hbe ▸ hbk))
        exact ⟨h4.1.trans h5.1, h4.2.trans h5.2⟩
      · have hbk2 : b = k := by omega
        rw [hbk2]
        have h5 := bandit_fold_untouched RW0 k st k a (Nat.lt_irrefl k)
        have hnn : ((List.range k).foldl (UCB.bandit_body RW0) st).narms = na :=
          (foldl_proj_const (fun (x : BanditState) => x.narms) (UCB.bandit_body RW0)
            (List.range k) (fun x i _ => bandit_body_narms RW0 x i) st).trans hn
        have h4 := bandit_body_cell_done RW0
          ((List.range k).foldl (UCB.bandit_body RW0) st) k a
          (hnn ▸ ha) (h5.1.trans (hQ k a)) (h5.2.trans (hc k a))
        exact h4

/-- Immediately after the initial run from a fresh state, every in-range Q
cell is half its first sampled reward and every in-range count is one. -/
theorem initial_run_cells (nb na : Nat) (RW0 : Nat → Nat → ℚ) (b a : Nat)
    (hb : b < nb) (ha : a < na) :
    (UCB.initial_run RW0 (GaussianBandits.init nb na)).Q b a = RW0 b a / 2 ∧
    (UCB.initial_run RW0 (GaussianBandits.init nb na)).counts b a = 1 := by
  unfold UCB.initial_run
  exact bandit_fold_done RW0 na nb (GaussianBandits.init nb na) b a hb ha rfl
    (fun _ _ => rfl) (fun _ _ => rfl)

/-- Row sums of the fresh state are zero. -/
theorem rowCount_init (nb na b : Nat) :
    rowCount na (GaussianBandits.init nb na).counts b = 0 := by
  simp [rowCount, GaussianBandits.init]

/-- A within-range index occurs exactly once in a range list. -/
theorem count_range_eq_one (nb b : Nat) (hb : b < nb) :
    (List.range nb).count b = 1 :=
  List.count_eq_one_of_mem (List.nodup_range nb) (List.mem_range.mpr hb)

/-- Row sums after EpsGreedy.learn grow by one per timestep for each
in-range bandit row. -/
theorem eps_learn_rowCount (na nb n : Nat) (eps : ℚ) (U : Nat → Nat → ℚ)
    (RA : Nat → Nat → Nat) (RW : Nat → Nat → ℚ) (s : BanditState) (b : Nat)
    (hna : 0 < na) (hRA : ∀ i bd, RA i bd < na)
    (hn : s.narms = na) (hb : s.nbandits = nb) :
    rowCount na (EpsGreedy.learn eps U RA RW s n).counts b
      = rowCount na s.counts b + ((List.range nb).count b) * n := by
  unfold EpsGreedy.learn
  have h := foldl_proj_add
    (fun (st : BanditState) => st.narms = na ∧ st.nbandits = nb)
    (fun st => rowCount na st.counts b)
    (fun st i =>
      let p := EpsGreedy.one_step eps (U i) (RA i) (RW i) st
      { p.1 with avg_reward := p.1.avg_reward ++ [npMean p.2] })
    ((List.range nb).count b) (List.range n)
    (fun st i _ hp =>
      ⟨(eps_one_step_narms eps (U i) (RA i) (RW i) st).trans hp.1,
       (eps_one_step_nbandits eps (U i) (RA i) (RW i) st).trans hp.2⟩)
    (fun st i _ hp => by
      show rowCount na (EpsGreedy.one_step eps (U i) (RA i) (RW i) st).1.counts b = _
      rw [eps_one_step_rowCount na eps (U i) (RA i) (RW i) st b hna (hRA i) hp.1, hp.2]
      simp)
    s ⟨hn, hb⟩
  simpa using h

/-- Row sums after UCB.learn grow by narms in the initial run and two per
main-loop timestep for each in-range bandit row. -/
theorem ucb_learn_rowCount (na nb n : Nat) (conf : Nat → Nat → ℚ)
    (RW0 : Nat → Nat → ℚ) (RW : Nat → Nat → ℚ) (s : BanditState) (b : Nat)
    (hna : 0 < na) (hn : s.narms = na) (hb : s.nbandits = nb) :
    rowCount na (UCB.learn conf RW0 RW s n).counts b
      = rowCount na s.counts b + na * (List.range nb).count b
        + 2 * (List.range nb).count b * n := by
  unfold UCB.learn
  have h := foldl_proj_add
    (fun (st : BanditState) => st.narms = na ∧ st.nbandits = nb)
    (fun st => rowCount na st.counts b)
    (fun st i =>
      let p := UCB.one_step conf (RW i) i st
      { p.1 with avg_reward := p.1.avg_reward ++ [npMean p.2] })
    (2 * (List.range nb).count b) (List.range n)
    (fun st i _ hp =>
      ⟨(ucb_one_step_narms conf (RW i) i st).trans hp.1,
       (ucb_one_step_nbandits conf (RW i) i st).trans hp.2⟩)
    (fun st i _ hp => by
      show rowCount na (UCB.one_step conf (RW i) i st).1.counts b = _
      rw [ucb_one_step_rowCount na conf (RW i) i st b hna hp.1, hp.2])
    (UCB.initial_run RW0 s)
    ⟨(initial_run_narms RW0 s).trans hn, (initial_run_nbandits RW0 s).trans hb⟩
  have h2 := initial_run_rowCount na nb RW0 s b hn hb
  simp only [h2] at h
  simpa [Nat.mul_assoc] using h

/-- Row sums after Softmax.learn grow by narms in the initial run and two
per main-loop timestep for each in-range bandit row. -/
theorem softmax_learn_rowCount (na nb n : Nat) (A : Nat → Nat → Nat)
    (RW0 : Nat → Nat → ℚ) (RW : Nat → Nat → ℚ) (s : BanditState) (b : Nat)
    (hA : ∀ i bd, A i bd < na) (hn : s.narms = na) (hb : s.nbandits = nb) :
    rowCount na (SoftmaxActionSelection.learn A RW0 RW s n).counts b
      = rowCount na s.counts b + na * (List.range nb).count b
        + 2 * (List.range nb).count b * n := by
  unfold SoftmaxActionSelection.learn
  rw [softmax_initial_run_eq]
  have h := foldl_proj_add
    (fun (st : BanditState) => st.narms = na ∧ st.nbandits = nb)
    (fun st => rowCount na st.counts b)
    (fun st i =>
      let p := SoftmaxActionSelection.one_step (A i) (RW i) st
      { p.1 with avg_reward := p.1.avg_reward ++ [npMean p.2] })
    (2 * (List.range nb).count b) (List.range n)
    (fun st i _ hp =>
      ⟨(softmax_one_step_narms (A i) (RW i) st).trans hp.1,
       (softmax_one_step_nbandits (A i) (RW i) st).trans hp.2⟩)
    (fun st i _ hp => by
      show rowCount na (SoftmaxActionSelection.one_step (A i) (RW i) st).1.counts b = _
      rw [softmax_one_step_rowCount na (A i) (RW i) st b (hA i) hp.1, hp.2])
    (UCB.initial_run RW0 s)
    ⟨(initial_run_narms RW0 s).trans hn, (initial_run_nbandits RW0 s).trans hb⟩
  have h2 := initial_run_rowCount na nb RW0 s b hn hb
  simp only [h2] at h
  simpa [Nat.mul_assoc] using h

/-- Effect of one UCB main-loop decision on its own (bandit, chosen arm)
cell: the counter advances by two and the Q denominator reads the
pre-decision count plus two, because the explicit increment happens before
the update. -/
theorem ucb_body_cell_hit (conf : Nat → Nat → ℚ) (RW : Nat → ℚ) (i : Nat)
    (acc : BanditState × List ℚ) (bandit : Nat) :
    (UCB.body conf RW i acc bandit).1.counts bandit (UCB.get_action conf i acc.1 bandit)
      = acc.1.counts bandit (UCB.get_action conf i acc.1 bandit) + 2 ∧
    (UCB.body conf RW i acc bandit).1.Q bandit (UCB.get_action conf i acc.1 bandit)
      = acc.1.Q bandit (UCB.get_action conf i acc.1 bandit)
        + (RW bandit - acc.1.Q bandit (UCB.get_action conf i acc.1 bandit))
          / ((acc.1.counts bandit (UCB.get_action conf i acc.1 bandit) : ℚ) + 2) := by
  have h1 : (UCB.body conf RW i acc bandit).1.Q
      = upd2 acc.1.Q bandit (UCB.get_action conf i acc.1 bandit)
          (acc.1.Q bandit (UCB.get_action conf i acc.1 bandit)
            + (RW bandit - acc.1.Q bandit (UCB.get_action conf i acc.1 bandit))
              / (((upd2 acc.1.counts bandit (UCB.get_action conf i acc.1 bandit)
                    (acc.1.counts bandit (UCB.get_action conf i acc.1 bandit) + 1)
                    bandit (UCB.get_action conf i acc.1 bandit) : Nat) : ℚ) + 1)) := rfl
  constructor
  · rw [ucb_body_counts]
    simp only [upd2_same]
  · rw [h1]
    simp only [upd2_same]
    push_cast
    ring

/-- Effect of one Softmax main-loop decision on its own (bandit, sampled
arm) cell: counter plus two, denominator pre-decision count plus two. -/
theorem softmax_body_cell_hit (A : Nat → Nat) (RW : Nat → ℚ)
    (acc : BanditState × List ℚ) (bandit : Nat) :
    (SoftmaxActionSelection.body A RW acc bandit).1.counts bandit (A bandit)
      = acc.1.counts bandit (A bandit) + 2 ∧
    (SoftmaxActionSelection.body A RW acc bandit).1.Q bandit (A bandit)
      = acc.1.Q bandit (A bandit)
        + (RW bandit - acc.1.Q bandit (A bandit))
          / ((acc.1.counts bandit (A bandit) : ℚ) + 2) := by
  have h1 : (SoftmaxActionSelection.body A RW acc bandit).1.Q
      = upd2 acc.1.Q bandit (A bandit)
          (acc.1.Q bandit (A bandit)
            + (RW bandit - acc.1.Q bandit (A bandit))
              / (((upd2 acc.1.counts bandit (A bandit)
                    (acc.1.counts bandit (A bandit) + 1)
                    bandit (A bandit) : Nat) : ℚ) + 1)) := rfl
  constructor
  · rw [softmax_body_counts]
    simp only [upd2_same]
  · rw [h1]
    simp only [upd2_same]
    push_cast
    ring

/-- The first projection of a fold over pairs whose first component evolves
independently is the fold of the first components. -/
theorem foldl_fst_pair {σ τ : Type} (g : σ → Nat → σ) (h : σ × τ → Nat → τ) :
    ∀ (L : List Nat) (x : σ) (t : τ),
      (L.foldl (fun acc i => (g acc.1 i, h acc i)) (x, t)).1 = L.foldl g x
  | [], _, _ => rfl
  | i :: L, x, t => foldl_fst_pair g h L (g x i) (h (x, t) i)

/-- The state component of the instrumented one_step is the plain one_step. -/
theorem one_step_tr_fst (conf : Nat → Nat → ℚ) (RW : Nat → ℚ) (i : Nat)
    (s : BanditState) :
    (UCB.one_step_tr conf RW i s).1 = UCB.one_step conf RW i s :=
  foldl_fst_pair (UCB.body conf RW i)
    (fun acc bandit => acc.2 ++ [(i, (List.range acc.1.1.narms).map (acc.1.1.counts bandit))])
    (List.range s.nbandits) (s, []) []

/-- The state component of the instrumented learn is the plain learn. -/
theorem learn_tr_fst (conf : Nat → Nat → ℚ) (RW0 : Nat → Nat → ℚ)
    (RW : Nat → Nat → ℚ) (s : BanditState) (n : Nat) :
    (UCB.learn_tr conf RW0 RW s n).1 = UCB.learn conf RW0 RW s n := by
  unfold UCB.learn_tr UCB.learn
  refine (foldl_fst_pair
    (fun st i =>
      let q := UCB.one_step_tr conf (RW i) i st
      { q.1.1 with avg_reward := q.1.1.avg_reward ++ [npMean q.1.2] })
    (fun p i => p.2 ++ (UCB.one_step_tr conf (RW i) i p.1).2)
    (List.range n) (UCB.initial_run RW0 s) []).trans ?_
  have hfun : (fun (st : BanditState) (i : Nat) =>
      let q := UCB.one_step_tr conf (RW i) i st
      { q.1.1 with avg_reward := q.1.1.avg_reward ++ [npMean q.1.2] })
      = (fun (st : BanditState) (i : Nat) =>
        let p := UCB.one_step conf (RW i) i st
        { p.1 with avg_reward := p.1.avg_reward ++ [npMean p.2] }) := by
    funext st i
    simp only [one_step_tr_fst]
  rw [hfun]

/-- Claim C1, counterexample.  The claim says that after learn(n) the counts
of each bandit row sum to n plus the initial-run visits, so for UCB with
1 bandit, 2 arms and n = 1 it predicts 1 + 2 = 3.  The code increments the
counter twice per main-loop decision, so the concrete run gives 2 + 2 = 4. -/
theorem claim1_counterexample :
    rowCount 2 ((UCB.learn (fun _ _ => 0) (fun _ _ => 0) (fun _ _ => 0)
      (GaussianBandits.init 1 2) 1).counts) 0 = 4 ∧
    rowCount 2 ((UCB.learn (fun _ _ => 0) (fun _ _ => 0) (fun _ _ => 0)
      (GaussianBandits.init 1 2) 1).counts) 0 ≠ 1 + 2 := by
  have h : rowCount 2 ((UCB.learn (fun _ _ => 0) (fun _ _ => 0) (fun _ _ => 0)
      (GaussianBandits.init 1 2) 1).counts) 0 = 4 := by
    norm_num [UCB.learn, UCB.initial_run, UCB.bandit_body, UCB.arm_body,
    UCB.one_step, UCB.body, UCB.get_action, npArgmax, npMean, rowMax,
    BanditState.countsInc, BanditState.qUpdate, BanditState.update_regret,
    GaussianBandits.init, upd2, rowCount, List.range_succ,
    Finset.sum_range_succ, Finset.sum_range_zero]
  exact ⟨h, by rw [h]; decide⟩

/-- Claim C1, amended.  After learn(n) from a fresh state, the counts of each
in-range bandit row sum to n for EpsilonGreedy and to num_arms + 2n for UCB
and Softmax (the initial run contributes num_arms, each main-loop decision
two). -/
theorem claim1_counts_sum (nb na n b : Nat) (eps : ℚ)
    (U : Nat → Nat → ℚ) (RA : Nat → Nat → Nat) (RWe : Nat → Nat → ℚ)
    (conf RW0 RWu : Nat → Nat → ℚ)
    (A : Nat → Nat → Nat) (RW0s RWs : Nat → Nat → ℚ)
    (hna : 0 < na) (hb : b < nb)
    (hRA : ∀ i bd, RA i bd < na) (hA : ∀ i bd, A i bd < na) :
    rowCount na (EpsGreedy.learn eps U RA RWe (GaussianBandits.init nb na) n).counts b
      = n ∧
    rowCount na (UCB.learn conf RW0 RWu (GaussianBandits.init nb na) n).counts b
      = na + 2 * n ∧
    rowCount na
        (SoftmaxActionSelection.learn A RW0s RWs (GaussianBandits.init nb na) n).counts b
      = na + 2 * n := by
  refine ⟨?_, ?_, ?_⟩
  · rw [eps_learn_rowCount na nb n eps U RA RWe _ b hna hRA rfl rfl,
      rowCount_init, count_range_eq_one nb b hb]
    simp
  · rw [ucb_learn_rowCount na nb n conf RW0 RWu _ b hna rfl rfl,
      rowCount_init, count_range_eq_one nb b hb]
    ring
  · rw [softmax_learn_rowCount na nb n A RW0s RWs _ b hA rfl rfl,
      rowCount_init, count_range_eq_one nb b hb]
    ring

/-- Witness for claim C1 at bandits = 1, arms = 2, n = 1 with zero oracles. -/
theorem claim1_counts_sum_witness :
    rowCount 2 (EpsGreedy.learn 0 (fun _ _ => 0) (fun _ _ => 0) (fun _ _ => 0)
      (GaussianBandits.init 1 2) 1).counts 0 = 1 ∧
    rowCount 2 (UCB.learn (fun _ _ => 0) (fun _ _ => 0) (fun _ _ => 0)
      (GaussianBandits.init 1 2) 1).counts 0 = 2 + 2 * 1 ∧
    rowCount 2 (SoftmaxActionSelection.learn (fun _ _ => 0) (fun _ _ => 0) (fun _ _ => 0)
      (GaussianBandits.init 1 2) 1).counts 0 = 2 + 2 * 1 :=
  claim1_counts_sum 1 2 1 0 0 (fun _ _ => 0) (fun _ _ => 0) (fun _ _ => 0)
    (fun _ _ => 0) (fun _ _ => 0) (fun _ _ => 0) (fun _ _ => 0) (fun _ _ => 0)
    (fun _ _ => 0) (by decide) (by decide)
    (fun _ _ => by norm_num) (fun _ _ => by norm_num)

/-- Claim C2, evaluation at a failing input.  For integer t, ln(t) > 0 is
exactly t at least 2.  The instrumented UCB run with 1 bandit, 2 arms and
learn(2) shows the main loop evaluates the confidence formula at the pairs
(t, counts row) = (0, [1,1]) and (1, [3,1]): all counts are at least 1, as
the claim says, but the t arguments are 0 and 1, so ln(t) is not positive
in the first two main-loop timesteps, contradicting the claim. -/
theorem claim2_failing_eval :
    (UCB.learn_tr (fun _ _ => 0) (fun _ _ => 0) (fun _ _ => 0)
        (GaussianBandits.init 1 2) 2).2 = [(0, [1, 1]), (1, [3, 1])] ∧
    (∀ p ∈ (UCB.learn_tr (fun _ _ => 0) (fun _ _ => 0) (fun _ _ => 0)
        (GaussianBandits.init 1 2) 2).2, ∀ c ∈ p.2, 1 ≤ c) ∧
    ¬ (∀ p ∈ (UCB.learn_tr (fun _ _ => 0) (fun _ _ => 0) (fun _ _ => 0)
        (GaussianBandits.init 1 2) 2).2, 2 ≤ p.1) := by
  have htr : (UCB.learn_tr (fun _ _ => 0) (fun _ _ => 0) (fun _ _ => 0)
      (GaussianBandits.init 1 2) 2).2 = [(0, [1, 1]), (1, [3, 1])] := by
    norm_num [UCB.learn_tr, UCB.one_step_tr, UCB.body_tr, UCB.learn, UCB.initial_run, UCB.bandit_body, UCB.arm_body,
    UCB.one_step, UCB.body, UCB.get_action, npArgmax, npMean, rowMax,
    BanditState.countsInc, BanditState.qUpdate, BanditState.update_regret,
    GaussianBandits.init, upd2, rowCount, List.range_succ,
    Finset.sum_range_succ, Finset.sum_range_zero]
  refine ⟨htr, ?_, ?_⟩
  · rw [htr]
    decide
  · rw [htr]
    decide

/-- Claim C3, counterexample.  The regrets list starts as [0.0] at
construction, so after UCB learn(0) with 3 arms it has the initial entry
plus one snapshot per initial-run decision: 4 entries, not 3. -/
theorem claim3_counterexample :
    (UCB.learn (fun _ _ => 0) (fun _ _ => 0) (fun _ _ => 0)
      (GaussianBandits.init 1 3) 0).regrets.length = 4 ∧
    (UCB.learn (fun _ _ => 0) (fun _ _ => 0) (fun _ _ => 0)
      (GaussianBandits.init 1 3) 0).regrets.length ≠ 3 := by
  have h : (UCB.learn (fun _ _ => 0) (fun _ _ => 0) (fun _ _ => 0)
      (GaussianBandits.init 1 3) 0).regrets.length = 4 := by
    norm_num [UCB.learn, UCB.initial_run, UCB.bandit_body, UCB.arm_body,
    UCB.one_step, UCB.body, UCB.get_action, npArgmax, npMean, rowMax,
    BanditState.countsInc, BanditState.qUpdate, BanditState.update_regret,
    GaussianBandits.init, upd2, rowCount, List.range_succ,
    Finset.sum_range_succ, Finset.sum_range_zero]
  exact ⟨h, by rw [h]; decide⟩

/-- Claim C3, amended.  After UCB(bandits = 1, arms = 3) and learn(0), for
every reward oracle, counts equals [1,1,1] and the regret sequence has
exactly 4 entries: the initial 0.0 plus one per initial-run decision. -/
theorem claim3_ucb_learn0 (conf RW0 RW : Nat → Nat → ℚ) :
    (UCB.learn conf RW0 RW (GaussianBandits.init 1 3) 0).counts 0 0 = 1 ∧
    (UCB.learn conf RW0 RW (GaussianBandits.init 1 3) 0).counts 0 1 = 1 ∧
    (UCB.learn conf RW0 RW (GaussianBandits.init 1 3) 0).counts 0 2 = 1 ∧
    (UCB.learn conf RW0 RW (GaussianBandits.init 1 3) 0).regrets.length = 4 := by
  have hlearn0 : UCB.learn conf RW0 RW (GaussianBandits.init 1 3) 0
      = UCB.initial_run RW0 (GaussianBandits.init 1 3) := rfl
  rw [hlearn0]
  refine ⟨(initial_run_cells 1 3 RW0 0 0 (by decide) (by decide)).2,
          (initial_run_cells 1 3 RW0 0 1 (by decide) (by decide)).2,
          (initial_run_cells 1 3 RW0 0 2 (by decide) (by decide)).2, ?_⟩
  rw [initial_run_regrets_len 3 1 RW0 _ rfl rfl]
  rfl

/-- Claim C4, counterexample.  With 2 bandits and 2 arms, and initial-run
rewards 0 and 6 for bandit 0 and 100 for both arms of bandit 1, the code
appends the per-bandit across-arms means [3, 100] during the initial run.
Under the claim every entry is the across-bandit mean of one timestep,
which here could only be (0 + 100)/2 = 50 or (6 + 100)/2 = 53, never 3. -/
theorem claim4_counterexample :
    (UCB.initial_run (fun b a => if b = 0 then (if a = 0 then (0 : ℚ) else 6) else 100)
      (GaussianBandits.init 2 2)).avg_reward = [3, 100] ∧
    (3 : ℚ) ≠ (0 + 100) / 2 ∧ (3 : ℚ) ≠ (6 + 100) / 2 := by
  refine ⟨?_, by norm_num, by norm_num⟩
  norm_num [UCB.learn, UCB.initial_run, UCB.bandit_body, UCB.arm_body,
    UCB.one_step, UCB.body, UCB.get_action, npArgmax, npMean, rowMax,
    BanditState.countsInc, BanditState.qUpdate, BanditState.update_regret,
    GaussianBandits.init, upd2, rowCount, List.range_succ,
    Finset.sum_range_succ, Finset.sum_range_zero]

/-- Claim C4, amended.  EpsGreedy.learn appends exactly one avg_reward entry
per timestep, the across-bandit mean of that timestep's rewards.  UCB and
Softmax do the same in the main loop, but their initial run first appends
one entry per bandit, each the across-arms mean of that bandit's own
initial rewards. -/
theorem claim4_avg_reward (nb na n : Nat) (eps : ℚ)
    (U : Nat → Nat → ℚ) (RA : Nat → Nat → Nat) (RWe : Nat → Nat → ℚ)
    (conf RW0 RWu : Nat → Nat → ℚ)
    (A : Nat → Nat → Nat) (RW0s RWs : Nat → Nat → ℚ) :
    (EpsGreedy.learn eps U RA RWe (GaussianBandits.init nb na) n).avg_reward
      = (List.range n).map (fun i => npMean ((List.range nb).map (RWe i))) ∧
    (UCB.learn conf RW0 RWu (GaussianBandits.init nb na) n).avg_reward
      = (List.range nb).map (fun b0 => npMean ((List.range na).map (RW0 b0)))
        ++ (List.range n).map (fun i => npMean ((List.range nb).map (RWu i))) ∧
    (SoftmaxActionSelection.learn A RW0s RWs (GaussianBandits.init nb na) n).avg_reward
      = (List.range nb).map (fun b0 => npMean ((List.range na).map (RW0s b0)))
        ++ (List.range n).map (fun i => npMean ((List.range nb).map (RWs i))) := by
  refine ⟨?_, ?_, ?_⟩
  · have h := eps_learn_avg nb eps U RA RWe (GaussianBandits.init nb na) n rfl
    simpa [GaussianBandits.init] using h
  · have h := ucb_learn_avg na nb conf RW0 RWu (GaussianBandits.init nb na) n rfl rfl
    simpa [GaussianBandits.init] using h
  · have h := softmax_learn_avg na nb A RW0s RWs (GaussianBandits.init nb na) n rfl rfl
    simpa [GaussianBandits.init] using h

/-- Claim C5, counterexample.  After the initial run of UCB with 1 bandit
and 1 arm and initial reward 2, the cell holds Q = 1 and counts = 1.  One
main-loop decision with reward 7 gives Q = 1 + (7 - 1)/(1 + 2) = 3: the
update divides by the pre-decision count plus 2.  Under the claim the
denominator is unaffected by the explicit pre-increment, i.e. pre-decision
count plus 1 = 2, which would give 1 + (7 - 1)/(1 + 1) = 4, not 3. -/
theorem claim5_counterexample :
    (UCB.one_step (fun _ _ => 0) (fun _ => 7) 0
        (UCB.initial_run (fun _ _ => 2) (GaussianBandits.init 1 1))).1.Q 0 0 = 3 ∧
    (3 : ℚ) ≠ 1 + (7 - 1) / (1 + 1) := by
  refine ⟨?_, by norm_num⟩
  norm_num [UCB.learn, UCB.initial_run, UCB.bandit_body, UCB.arm_body,
    UCB.one_step, UCB.body, UCB.get_action, npArgmax, npMean, rowMax,
    BanditState.countsInc, BanditState.qUpdate, BanditState.update_regret,
    GaussianBandits.init, upd2, rowCount, List.range_succ,
    Finset.sum_range_succ, Finset.sum_range_zero]

/-- Claim C5, amended.  Every UCB and Softmax main-loop decision increments
the counter once before the value update and once after it, so the counter
advances by exactly 2 per decision; the denominator (counts + 1) of the
value update reads the already pre-incremented count, hence equals the
pre-decision count plus 2 (it is affected by the explicit pre-increment). -/
theorem claim5_double_increment (conf : Nat → Nat → ℚ) (RW : Nat → ℚ) (i : Nat)
    (acc : BanditState × List ℚ) (bandit : Nat) (A : Nat → Nat) :
    ((UCB.body conf RW i acc bandit).1.counts bandit (UCB.get_action conf i acc.1 bandit)
        = acc.1.counts bandit (UCB.get_action conf i acc.1 bandit) + 2 ∧
      (UCB.body conf RW i acc bandit).1.Q bandit (UCB.get_action conf i acc.1 bandit)
        = acc.1.Q bandit (UCB.get_action conf i acc.1 bandit)
          + (RW bandit - acc.1.Q bandit (UCB.get_action conf i acc.1 bandit))
            / ((acc.1.counts bandit (UCB.get_action conf i acc.1 bandit) : ℚ) + 2)) ∧
    ((SoftmaxActionSelection.body A RW acc bandit).1.counts bandit (A bandit)
        = acc.1.counts bandit (A bandit) + 2 ∧
      (SoftmaxActionSelection.body A RW acc bandit).1.Q bandit (A bandit)
        = acc.1.Q bandit (A bandit)
          + (RW bandit - acc.1.Q bandit (A bandit))
            / ((acc.1.counts bandit (A bandit) : ℚ) + 2)) :=
  ⟨ucb_body_cell_hit conf RW i acc bandit, softmax_body_cell_hit A RW acc bandit⟩

/-- Claim C6.  The iterated cell update Q += (r - Q)/(counts + 1) followed by
counts += 1, started at Q = 0 and counts = 0, computes the arithmetic mean
of the rewards and counts the samples; and one EpsGreedy decision applies
exactly this cell update (qUpdate then countsInc) to its chosen cell. -/
theorem claim6_incremental_mean (rs : List ℚ) (s : BanditState) (b a : Nat) (r : ℚ) :
    (runUpdates rs).1 = rs.sum / (rs.length : ℚ) ∧
    (runUpdates rs).2 = rs.length ∧
    ((s.qUpdate b a r).countsInc b a).Q b a = (sampleStep (s.Q b a, s.counts b a) r).1 ∧
    ((s.qUpdate b a r).countsInc b a).counts b a
      = (sampleStep (s.Q b a, s.counts b a) r).2 := by
  refine ⟨?_, ?_, ?_, ?_⟩
  · rw [runUpdates_eq]
  · rw [runUpdates_eq]
  · show upd2 s.Q b a (s.Q b a + (r - s.Q b a) / ((s.counts b a : ℚ) + 1)) b a = _
    rw [upd2_same]
    rfl
  · show upd2 s.counts b a (s.counts b a + 1) b a = _
    rw [upd2_same]
    rfl

/-- Claim C7.  For all three policies and every run of learn(n) from a fresh
state (over all oracles, hence all realizable runs), the regret sequence is
non-negative at every index and non-decreasing, because every recorded gap
max(Q row) - Q entry is non-negative for an in-range action. -/
theorem claim7_regret_monotone (nb na n : Nat) (eps : ℚ)
    (U : Nat → Nat → ℚ) (RA : Nat → Nat → Nat) (RWe : Nat → Nat → ℚ)
    (conf RW0 RWu : Nat → Nat → ℚ)
    (A : Nat → Nat → Nat) (RW0s RWs : Nat → Nat → ℚ)
    (hna : 0 < na) (hRA : ∀ i bd, RA i bd < na) (hA : ∀ i bd, A i bd < na) :
    nonnegMono (EpsGreedy.learn eps U RA RWe (GaussianBandits.init nb na) n).regrets ∧
    nonnegMono (UCB.learn conf RW0 RWu (GaussianBandits.init nb na) n).regrets ∧
    nonnegMono
      (SoftmaxActionSelection.learn A RW0s RWs (GaussianBandits.init nb na) n).regrets :=
  ⟨(eps_learn_RegInv na eps U RA RWe _ n hna hRA rfl (init_RegInv nb na)).1,
   (ucb_learn_RegInv na conf RW0 RWu _ n hna rfl (init_RegInv nb na)).1,
   (softmax_learn_RegInv na A RW0s RWs _ n hA rfl (init_RegInv nb na)).1⟩

/-- Witness for claim C7 at bandits = 1, arms = 1, n = 1 with zero oracles. -/
theorem claim7_regret_monotone_witness :
    nonnegMono (EpsGreedy.learn 0 (fun _ _ => 0) (fun _ _ => 0) (fun _ _ => 0)
      (GaussianBandits.init 1 1) 1).regrets ∧
    nonnegMono (UCB.learn (fun _ _ => 0) (fun _ _ => 0) (fun _ _ => 0)
      (GaussianBandits.init 1 1) 1).regrets ∧
    nonnegMono (SoftmaxActionSelection.learn (fun _ _ => 0) (fun _ _ => 0) (fun _ _ => 0)
      (GaussianBandits.init 1 1) 1).regrets :=
  claim7_regret_monotone 1 1 1 0 (fun _ _ => 0) (fun _ _ => 0) (fun _ _ => 0)
    (fun _ _ => 0) (fun _ _ => 0) (fun _ _ => 0) (fun _ _ => 0) (fun _ _ => 0)
    (fun _ _ => 0) (by decide) (fun _ _ => by norm_num) (fun _ _ => by norm_num)

/-- Claim C8.  With epsilon = 0 the exploration branch is unreachable for
every state and every decision, since the uniform draw is at least 0: each
decision is the argmax of the current Q row with first-index tie-breaking
(this first conjunct is unconditional in the state, covering tie states
such as the all-zero cold start); and whenever one arm strictly exceeds all
others it is the arm chosen, so it keeps being chosen while it stays
strictly on top. -/
theorem claim8_eps_zero_greedy (s : BanditState) (bandit : Nat) (u : ℚ) (ra a : Nat)
    (hu : 0 ≤ u) :
    EpsGreedy.get_action 0 s bandit u ra = npArgmax (s.Q bandit) s.narms ∧
    (a < s.narms →
      (∀ j, j < s.narms → j ≠ a → s.Q bandit j < s.Q bandit a) →
      EpsGreedy.get_action 0 s bandit u ra = a) := by
  have hbr : ¬ (u < 0) := not_lt.mpr hu
  constructor
  · unfold EpsGreedy.get_action
    rw [if_neg hbr]
  · intro ha hd
    unfold EpsGreedy.get_action
    rw [if_neg hbr]
    exact npArgmax_eq_of_strict _ _ a ha hd

/-- State used by the witness of claim C8: three arms with estimates
1, 5, 2, so arm 1 strictly dominates. -/
def wState : BanditState :=
  { GaussianBandits.init 1 3 with
    Q := fun _ a => if a = 1 then 5 else if a = 2 then 2 else 1 }

/-- Witness for claim C8: the dominating arm 1 is chosen by the greedy
branch. -/
theorem claim8_eps_zero_greedy_witness :
    EpsGreedy.get_action 0 wState 0 (1 / 2) 0 = npArgmax (wState.Q 0) wState.narms ∧
    EpsGreedy.get_action 0 wState 0 (1 / 2) 0 = 1 :=
  ⟨(claim8_eps_zero_greedy wState 0 (1 / 2) 0 1 (by norm_num)).1,
   (claim8_eps_zero_greedy wState 0 (1 / 2) 0 1 (by norm_num)).2 (by decide)
     (by
       intro j hj hne
       have hj3 : j < 3 := hj
       interval_cases j
       · norm_num [wState]
       · exact absurd rfl hne
       · norm_num [wState])⟩

/-- Claim C9, counterexample.  No construction or entry point validates its
arguments: constructing with zero bandits succeeds, a non-positive softmax
temperature is stored unchecked, EpsGreedy.learn with non-positive
n_timesteps returns the state unchanged instead of failing, and UCB.learn
with n_timesteps = 0 still silently runs the whole initial phase (the
regret list grows to 3 entries). -/
theorem claim9_counterexample :
    (GaussianBandits.init 0 5).narms = 5 ∧
    (SoftmaxActionSelection.init 1 2 (-1)).temp = -1 ∧
    EpsGreedy.learn 0 (fun _ _ => 0) (fun _ _ => 0) (fun _ _ => 0)
      (GaussianBandits.init 1 2) 0 = GaussianBandits.init 1 2 ∧
    (UCB.learn (fun _ _ => 0) (fun _ _ => 0) (fun _ _ => 0)
      (GaussianBandits.init 1 2) 0).regrets.length = 3 := by
  refine ⟨rfl, rfl, rfl, ?_⟩
  norm_num [UCB.learn, UCB.initial_run, UCB.bandit_body, UCB.arm_body,
    UCB.one_step, UCB.body, UCB.get_action, npArgmax, npMean, rowMax,
    BanditState.countsInc, BanditState.qUpdate, BanditState.update_regret,
    GaussianBandits.init, upd2, rowCount, List.range_succ,
    Finset.sum_range_succ, Finset.sum_range_zero]

/-- Claim C9, amended.  The code performs no input validation: constructors
accept any sizes (including zero) and any temperature (including
non-positive ones, stored unchecked), and learn with zero timesteps returns
normally, performing no main-loop work for EpsGreedy and exactly the
initial run for UCB and Softmax. -/
theorem claim9_no_validation (bandits arms : Nat) (temp eps : ℚ)
    (U : Nat → Nat → ℚ) (RA : Nat → Nat → Nat) (RW : Nat → Nat → ℚ)
    (conf RW0 RWu : Nat → Nat → ℚ) (A : Nat → Nat → Nat) (s : BanditState) :
    (GaussianBandits.init bandits arms).nbandits = bandits ∧
    (GaussianBandits.init bandits arms).narms = arms ∧
    (SoftmaxActionSelection.init bandits arms temp).temp = temp ∧
    EpsGreedy.learn eps U RA RW s 0 = s ∧
    UCB.learn conf RW0 RWu s 0 = UCB.initial_run RW0 s ∧
    SoftmaxActionSelection.learn A RW0 RWu s 0
      = SoftmaxActionSelection.initial_run RW0 s :=
  ⟨rfl, rfl, rfl, rfl, rfl, rfl⟩

/-- Claim C10.  In the UCB and Softmax initial run the count is incremented
before the value update, so the first update of each cell divides by 2:
immediately after initial_run from a fresh state, Q[b,a] is half the first
sampled reward for every in-range bandit b and arm a. -/
theorem claim10_initial_q_half (nb na : Nat) (RW0 : Nat → Nat → ℚ) (b a : Nat)
    (hb : b < nb) (ha : a < na) :
    (UCB.initial_run RW0 (GaussianBandits.init nb na)).Q b a = RW0 b a / 2 ∧
    (SoftmaxActionSelection.initial_run RW0 (GaussianBandits.init nb na)).Q b a
      = RW0 b a / 2 := by
  refine ⟨(initial_run_cells nb na RW0 b a hb ha).1, ?_⟩
  rw [softmax_initial_run_eq]
  exact (initial_run_cells nb na RW0 b a hb ha).1

/-- Witness for claim C10: with constant initial rewards 3 in a 1 by 1
problem, the estimate after the initial run is 3/2. -/
theorem claim10_initial_q_half_witness :
    (UCB.initial_run (fun _ _ => 3) (GaussianBandits.init 1 1)).Q 0 0 = 3 / 2 ∧
    (SoftmaxActionSelection.initial_run (fun _ _ => 3) (GaussianBandits.init 1 1)).Q 0 0
      = 3 / 2 :=
  claim10_initial_q_half 1 1 (fun _ _ => 3) 0 0 (by decide) (by decide)

end KarmedBandit
